import Mathlib

/-!
# Verification of the rally-node pagination core (`src/lib/restapi.js`)

Shallow embedding of the three pagination strategies of the Rally REST
client: bulk accumulation (`query`), page streaming (`queryStream`) and
batch regrouping (`queryBatch`), together with the shared
termination/validity logic (`isValidPagination`, `hasMoreData`,
`withinLimit`).

The HTTP transport is modelled by a list of responses consumed in order:
the k-th fetch issued by a driver receives the k-th element of the list
(either a page envelope or a transport error).  Each driver returns, in
addition to its JavaScript return value, the list of requests it issued
(start index and pagesize of each outgoing GET) so that fetch counts and
outgoing parameters can be reasoned about.  A driver returns `none` when
the supplied response list is shorter than the number of fetches the
JavaScript code would perform; every terminating execution of the real
code is captured by a sufficiently long response list.

JavaScript numeric fields that may be missing or non-numeric
(`StartIndex`, `TotalResultCount` of a server envelope) are modelled as
`Option Int`, `none` standing for a missing or non-numeric value.  The
JavaScript truthiness test on a number (`result.StartIndex && typeof
result.StartIndex === 'number'`) becomes "is `some n` with `n ≠ 0`".
-/

namespace Rally

/-- Query options after the `_.merge({start: 1, pageSize: 200}, options)`
defaults step of `query` / `queryStream`. -/
structure QueryOpts where
  start : Int
  pageSize : Int
  limit : Option Int
deriving Repr, DecidableEq

/-- `_.merge({start: 1, pageSize: 200}, options)`: fill in the defaults of
the caller-supplied options. -/
def mergeDefaults (start pageSize : Option Int) (limit : Option Int) : QueryOpts :=
  { start := start.getD 1, pageSize := pageSize.getD 200, limit := limit }

/-- A server page envelope, as consumed by the pagination logic.
`StartIndex`/`TotalResultCount` are `none` when missing or non-numeric. -/
structure PageEnvelope (α : Type) where
  Results : List α
  StartIndex : Option Int
  TotalResultCount : Option Int
deriving Repr, DecidableEq

/-- One outgoing GET request: the `start` and `pagesize` query-string
parameters. -/
structure Request where
  start : Int
  pagesize : Int
deriving Repr, DecidableEq

/-- The resolved value of `query`: the (mutated) last envelope, with
`Results`, `StartIndex`, `PageSize` overwritten by the driver. -/
structure QueryResult (α : Type) where
  Results : List α
  StartIndex : Int
  PageSize : Nat
  TotalResultCount : Option Int
deriving Repr, DecidableEq

/-- The transport: responses handed out in order, one per fetch. -/
abbrev Responses (ε α : Type) := List (Except ε (PageEnvelope α))

/-- `optimalPageSize`: `min(pageSize, limit)` when a positive limit is
supplied, the requested page size otherwise. -/
def optimalPageSize (o : QueryOpts) : Int :=
  match o.limit with
  | some l => if 0 < l then min o.pageSize l else o.pageSize
  | none => o.pageSize

/-- JavaScript `v && typeof v === 'number'` for our `Option Int` fields:
present and nonzero. -/
def numTruthy : Option Int → Bool
  | some n => n != 0
  | none => false

/-- `isValidPagination`: the envelope's start index is a truthy number,
the requested page size is truthy and positive, and the envelope's total
result count is a truthy number. -/
def isValidPagination (o : QueryOpts) (e : PageEnvelope α) : Bool :=
  numTruthy e.StartIndex
    && (o.pageSize != 0 && decide (0 < o.pageSize))
    && numTruthy e.TotalResultCount

/-- `hasMoreData`: `result.StartIndex + options.pageSize <=
result.TotalResultCount`; comparisons against a missing field are false
in JavaScript (`NaN` comparisons). -/
def hasMoreData (o : QueryOpts) (e : PageEnvelope α) : Bool :=
  match e.StartIndex, e.TotalResultCount with
  | some si, some trc => decide (si + o.pageSize ≤ trc)
  | _, _ => false

/-- `withinLimit`: no limit supplied, or fewer records fetched so far
than the limit. -/
def withinLimit (o : QueryOpts) (tf : Int) : Bool :=
  match o.limit with
  | none => true
  | some l => decide (tf < l)

/-- The guard of the next-page fetch in `loadRemainingPages` and
`processPages`: `isValidPagination && hasMoreData && withinLimit`. -/
def shouldFetchNext (o : QueryOpts) (e : PageEnvelope α) (tf : Int) : Bool :=
  isValidPagination o e && hasMoreData o e && withinLimit o tf

/-- The start index of the next request:
`result.StartIndex + options.pageSize`. -/
def nextStart (o : QueryOpts) (e : PageEnvelope α) : Int :=
  e.StartIndex.getD 0 + o.pageSize

/-- The append step of `query.loadRemainingPages` on one page: either an
early-exit result (`Sum.inl`) or the updated accumulator and fetched
count (`Sum.inr`). -/
def appendPage (o : QueryOpts) (e : PageEnvelope α) (acc : List α) (tf : Int) :
    QueryResult α ⊕ (List α × Int) :=
  if 0 < e.Results.length then
    match o.limit with
    | some l =>
      if l - tf ≤ 0 then
        Sum.inl ⟨acc, o.start, acc.length, e.TotalResultCount⟩
      else if (e.Results.length : Int) > l - tf then
        let acc' := acc ++ e.Results.take (l - tf).toNat
        Sum.inl ⟨acc', o.start, acc'.length, e.TotalResultCount⟩
      else
        Sum.inr (acc ++ e.Results, tf + e.Results.length)
    | none => Sum.inr (acc ++ e.Results, tf + e.Results.length)
  else
    Sum.inr (acc, tf)

/-- `query.loadRemainingPages`: accumulate the current envelope's records
(respecting `limit`), then either fetch the next page or finish.
Returns the driver's result together with the next-page requests issued
inside this call. -/
def loadRemainingPages (o : QueryOpts) :
    PageEnvelope α → Responses ε α → List α → Int →
    Option (Except ε (QueryResult α) × List Request)
  | e, [], acc, tf =>
    match appendPage o e acc tf with
    | Sum.inl r => some (Except.ok r, [])
    | Sum.inr (acc', tf') =>
      if shouldFetchNext o e tf' then none
      else some (Except.ok ⟨acc', o.start, acc'.length, e.TotalResultCount⟩, [])
  | e, resp :: rest', acc, tf =>
    match appendPage o e acc tf with
    | Sum.inl r => some (Except.ok r, [])
    | Sum.inr (acc', tf') =>
      if shouldFetchNext o e tf' then
        let req : Request := ⟨nextStart o e, optimalPageSize o⟩
        match resp with
        | Except.error err => some (Except.error err, [req])
        | Except.ok e' =>
          match loadRemainingPages o e' rest' acc' tf' with
          | none => none
          | some (res, reqs) => some (res, req :: reqs)
      else
        some (Except.ok ⟨acc', o.start, acc'.length, e.TotalResultCount⟩, [])

/-- `query`: issue the first request and drive `loadRemainingPages`.
Returns the settled promise value and the full list of requests issued. -/
def query (o : QueryOpts) (responses : Responses ε α) :
    Option (Except ε (QueryResult α) × List Request) :=
  let req0 : Request := ⟨o.start, optimalPageSize o⟩
  match responses with
  | [] => none
  | Except.error err :: _ => some (Except.error err, [req0])
  | Except.ok e :: rest =>
    match loadRemainingPages o e rest [] 0 with
    | none => none
    | some (res, reqs) => some (res, req0 :: reqs)

/-! ## queryStream -/

/-- The `pageInfo` handed to the stream callback. -/
structure PageInfo where
  startIndex : Option Int
  pageSize : Nat
  totalResultCount : Option Int
  totalProcessed : Int
deriving Repr, DecidableEq

/-- The resolved value of `queryStream`. -/
structure StreamResult where
  totalProcessed : Int
  completed : Bool
deriving Repr, DecidableEq

/-- One invocation of the stream callback, as observed by a test
harness: the (trimmed) records delivered, the `pageInfo`, and the
callback's continue/stop decision. -/
structure CallRecord (α : Type) where
  records : List α
  info : PageInfo
  decision : Bool
deriving Repr, DecidableEq

/-- A stream page callback.  JavaScript callbacks may be stateful, so
the callback threads an explicit state `σ` and returns its
continue/stop decision together with the new state. -/
abbrev PageCb (σ α : Type) := σ → List α → PageInfo → Bool × σ

/-- The limit trimming of `processPages` on one page: `none` means the
limit is already reached (return `completed: true` without invoking the
callback), otherwise the records to deliver. -/
def limitPage (o : QueryOpts) (page : List α) (tp : Int) : Option (List α) :=
  match o.limit with
  | some l =>
    if l - tp ≤ 0 then none
    else if (page.length : Int) > l - tp then some (page.take (l - tp).toNat)
    else some page
  | none => some page

/-- `options.limit !== undefined && totalProcessed >= options.limit`. -/
def limitReached (o : QueryOpts) (tp : Int) : Bool :=
  match o.limit with
  | none => false
  | some l => decide (l ≤ tp)

/-- The per-page front half of `queryStream.processPages`: trim the
page to the limit and deliver it to the callback.  `Sum.inl` is an early
return (limit already reached, callback stop, or limit reached by this
page); `Sum.inr` carries the updated processed count, callback state and
trace into the pagination decision. -/
def streamPage (o : QueryOpts) (cb : PageCb σ α) (e : PageEnvelope α) (tp : Int) (s : σ) :
    (StreamResult × List (CallRecord α) × σ) ⊕ (Int × σ × List (CallRecord α)) :=
  if 0 < e.Results.length then
    match limitPage o e.Results tp with
    | none => Sum.inl (⟨tp, true⟩, [], s)
    | some lp =>
      let pi : PageInfo := ⟨e.StartIndex, lp.length, e.TotalResultCount, tp + lp.length⟩
      let cs := cb s lp pi
      let tp' := tp + (lp.length : Int)
      let entry : CallRecord α := ⟨lp, pi, cs.1⟩
      if !cs.1 then Sum.inl (⟨tp', false⟩, [entry], cs.2)
      else if limitReached o tp' then Sum.inl (⟨tp', true⟩, [entry], cs.2)
      else Sum.inr (tp', cs.2, [entry])
  else
    Sum.inr (tp, s, [])

/-- `queryStream.processPages`: deliver the current page to the
callback (trimmed to the limit), then stop or fetch the next page.
Returns the stream result, the next-page requests issued, the callback
invocation trace, and the final callback state. -/
def processPages (o : QueryOpts) (cb : PageCb σ α) :
    PageEnvelope α → Responses ε α → Int → σ →
    Option (Except ε StreamResult × List Request × List (CallRecord α) × σ)
  | e, [], tp, s =>
    match streamPage o cb e tp s with
    | Sum.inl (sr, tr, s') => some (Except.ok sr, [], tr, s')
    | Sum.inr (tp', s', tr) =>
      if shouldFetchNext o e tp' then none
      else some (Except.ok ⟨tp', true⟩, [], tr, s')
  | e, resp :: rest', tp, s =>
    match streamPage o cb e tp s with
    | Sum.inl (sr, tr, s') => some (Except.ok sr, [], tr, s')
    | Sum.inr (tp', s', tr) =>
      if shouldFetchNext o e tp' then
        let req : Request := ⟨nextStart o e, optimalPageSize o⟩
        match resp with
        | Except.error err => some (Except.error err, [req], tr, s')
        | Except.ok e' =>
          match processPages o cb e' rest' tp' s' with
          | none => none
          | some (res, reqs, tr', s'') => some (res, req :: reqs, tr ++ tr', s'')
      else
        some (Except.ok ⟨tp', true⟩, [], tr, s')

/-- `queryStream`: issue the first request and drive `processPages`. -/
def queryStream (o : QueryOpts) (cb : PageCb σ α) (s0 : σ) (responses : Responses ε α) :
    Option (Except ε StreamResult × List Request × List (CallRecord α) × σ) :=
  let req0 : Request := ⟨o.start, optimalPageSize o⟩
  match responses with
  | [] => none
  | Except.error err :: _ => some (Except.error err, [req0], [], s0)
  | Except.ok e :: rest =>
    match processPages o cb e rest 0 s0 with
    | none => none
    | some (res, reqs, tr, s') => some (res, req0 :: reqs, tr, s')

/-! ## queryBatch -/

/-- The `batchInfo` handed to the batch callback. -/
structure BatchInfo where
  batchNumber : Nat
  batchSize : Nat
  totalProcessed : Int
  totalResultCount : Option Int
deriving Repr, DecidableEq

/-- One invocation of the batch callback: the snapshot of the batch, the
`batchInfo`, and the callback's decision. -/
structure BatchCall (α : Type) where
  records : List α
  info : BatchInfo
  decision : Bool
deriving Repr, DecidableEq

/-- The mutable closure state of `queryBatch`: `batches`,
`currentBatch`, `totalProcessed`, plus the observed callback trace. -/
structure BatchState (α : Type) where
  batches : List (List α)
  currentBatch : List α
  totalProcessed : Int
  calls : List (BatchCall α)
deriving Repr, DecidableEq

/-- The resolved value of `queryBatch`. -/
structure BatchResult where
  totalProcessed : Int
  totalBatches : Nat
  completed : Bool
deriving Repr, DecidableEq

/-- A batch callback (pure; the 1-based `batchNumber` in the
`batchInfo` distinguishes successive invocations). -/
abbrev BatchCb (α : Type) := List α → BatchInfo → Bool

/-- The body of the page callback `queryBatch` passes to `queryStream`:
push each record onto the current batch, firing the batch callback each
time the batch reaches `batchSize`; stop the stream when the batch
callback returns false. -/
def batchStep (bs : Int) (bcb : BatchCb α) (trc : Option Int) :
    BatchState α → List α → Bool × BatchState α
  | st, [] => (true, st)
  | st, r :: rs =>
    let cur := st.currentBatch ++ [r]
    if bs ≤ (cur.length : Int) then
      let bi : BatchInfo := ⟨st.batches.length + 1, cur.length, st.totalProcessed + cur.length, trc⟩
      let c := bcb cur bi
      let st' : BatchState α :=
        ⟨st.batches ++ [cur], [], st.totalProcessed + cur.length, st.calls ++ [⟨cur, bi, c⟩]⟩
      if c then batchStep bs bcb trc st' rs else (false, st')
    else
      batchStep bs bcb trc ⟨st.batches, cur, st.totalProcessed, st.calls⟩ rs

/-- The effective batch size: the explicit argument, or
`options.pageSize || 200` when the callback was passed in its place. -/
def effectiveBatchSize (o : QueryOpts) (batchSize : Option Int) : Int :=
  match batchSize with
  | some b => b
  | none => if o.pageSize != 0 then o.pageSize else 200

/-- The final-flush step of `queryBatch`: if the pending batch is
non-empty, invoke the batch callback once more (its return value is
discarded) and fold the remainder into the totals. -/
def flushBatch (bcb : BatchCb α) (sr : StreamResult) (st : BatchState α) : BatchState α :=
  if 0 < st.currentBatch.length then
    let bi : BatchInfo := ⟨st.batches.length + 1, st.currentBatch.length,
      st.totalProcessed + st.currentBatch.length, some sr.totalProcessed⟩
    let c := bcb st.currentBatch bi
    ⟨st.batches ++ [st.currentBatch], [], st.totalProcessed + st.currentBatch.length,
      st.calls ++ [⟨st.currentBatch, bi, c⟩]⟩
  else st

/-- `queryBatch`: run `queryStream` with the batching page callback,
then flush the non-empty remainder.  Returns the batch result, the
requests issued, and the batch-callback invocation trace. -/
def queryBatch (o : QueryOpts) (batchSize : Option Int) (bcb : BatchCb α)
    (responses : Responses ε α) :
    Option (Except ε BatchResult × List Request × List (BatchCall α)) :=
  let bsz := effectiveBatchSize o batchSize
  let cb : PageCb (BatchState α) α := fun st page pi => batchStep bsz bcb pi.totalResultCount st page
  match queryStream o cb ⟨[], [], 0, []⟩ responses with
  | none => none
  | some (Except.error err, reqs, _, st) => some (Except.error err, reqs, st.calls)
  | some (Except.ok sr, reqs, _, st) =>
    let st' := flushBatch bcb sr st
    some (Except.ok ⟨st'.totalProcessed, st'.batches.length, sr.completed⟩, reqs, st'.calls)

/-! ## A deterministic well-formed page fetcher (test stub)

Model of the deterministic `PageFetcher` stub of the testable
properties: every envelope echoes the requested start index, reports a
fixed total result count `T`, and contains exactly the requested number
of records (the `pagesize` of every outgoing request is
`optimalPageSize o`). -/

/-- A well-formed stub envelope for a request at start index `s`. -/
def stubPage (o : QueryOpts) (T s : Int) : PageEnvelope Nat :=
  ⟨List.replicate (optimalPageSize o).toNat 0, some s, some T⟩

/-- `n` consecutive stub responses starting at start index `s`,
successive start indices `pageSize` apart. -/
def stubList (o : QueryOpts) (T : Int) : Nat → Int → Responses Unit Nat
  | 0, _ => []
  | n + 1, s => Except.ok (stubPage o T s) :: stubList o T n (s + o.pageSize)

/-- Derived description of the records `query` keeps from its first page
(the limit trimming of `loadRemainingPages` applied to an empty
accumulator): everything when no limit is set, otherwise the first
`limit` records. -/
def firstPageResults (o : QueryOpts) (e : PageEnvelope α) : List α :=
  match o.limit with
  | none => e.Results
  | some l => e.Results.take l.toNat

/-- Total number of records delivered across a callback trace. -/
def traceTotal (tr : List (CallRecord α)) : Int :=
  (tr.map fun c => (c.records.length : Int)).sum

/-! ## Limit invariant for `query` -/

section LimitQuery

variable {α ε : Type} {o : QueryOpts} {l : Int}

lemma appendPage_inl_le (hl : o.limit = some l) {e : PageEnvelope α} {acc : List α} {tf : Int}
    {r : QueryResult α} (h : appendPage o e acc tf = Sum.inl r)
    (hacc : (acc.length : Int) = tf) (htf : tf ≤ l) :
    (r.Results.length : Int) ≤ l := by
  unfold appendPage at h
  rw [hl] at h
  by_cases hres : 0 < e.Results.length
  · simp only [hres, if_true] at h
    by_cases h1 : l - tf ≤ 0
    · simp only [h1, if_true] at h
      cases h
      simpa [hacc] using htf
    · simp only [h1, if_false] at h
      by_cases h2 : (e.Results.length : Int) > l - tf
      · simp only [h2, if_true] at h
        cases h
        simp only [List.length_append, List.length_take]
        push_cast
        omega
      · simp only [h2, if_false] at h
        exact absurd h (by simp)
  · simp only [hres, if_false] at h
    exact absurd h (by simp)

lemma appendPage_inr_len {e : PageEnvelope α} {acc acc' : List α} {tf tf' : Int}
    (h : appendPage o e acc tf = Sum.inr (acc', tf'))
    (hacc : (acc.length : Int) = tf) :
    (acc'.length : Int) = tf' := by
  unfold appendPage at h
  by_cases hres : 0 < e.Results.length
  · simp only [hres, if_true] at h
    cases hlim : o.limit with
    | none =>
      rw [hlim] at h
      cases h
      simp [hacc]
    | some l' =>
      rw [hlim] at h
      by_cases h1 : l' - tf ≤ 0
      · simp only [h1, if_true] at h
        exact absurd h (by simp)
      · simp only [h1, if_false] at h
        by_cases h2 : (e.Results.length : Int) > l' - tf
        · simp only [h2, if_true] at h
          exact absurd h (by simp)
        · simp only [h2, if_false] at h
          cases h
          simp [hacc]
  · simp only [hres, if_false] at h
    cases h
    exact hacc

lemma appendPage_inr_le (hl : o.limit = some l) {e : PageEnvelope α} {acc acc' : List α}
    {tf tf' : Int} (h : appendPage o e acc tf = Sum.inr (acc', tf')) (htf : tf ≤ l) :
    tf' ≤ l := by
  unfold appendPage at h
  rw [hl] at h
  by_cases hres : 0 < e.Results.length
  · simp only [hres, if_true] at h
    by_cases h1 : l - tf ≤ 0
    · simp only [h1, if_true] at h
      exact absurd h (by simp)
    · simp only [h1, if_false] at h
      by_cases h2 : (e.Results.length : Int) > l - tf
      · simp only [h2, if_true] at h
        exact absurd h (by simp)
      · simp only [h2, if_false] at h
        cases h
        omega
  · simp only [hres, if_false] at h
    cases h
    exact htf

lemma loadRemainingPages_le (hl : o.limit = some l) :
    ∀ (rest : Responses ε α) (e : PageEnvelope α) (acc : List α) (tf : Int),
      (acc.length : Int) = tf → tf ≤ l →
      ∀ r reqs, loadRemainingPages o e rest acc tf = some (Except.ok r, reqs) →
      (r.Results.length : Int) ≤ l := by
  intro rest
  induction rest with
  | nil =>
    intro e acc tf hacc htf r reqs h
    unfold loadRemainingPages at h
    cases happ : appendPage o e acc tf with
    | inl r' =>
      rw [happ] at h
      cases h
      exact appendPage_inl_le hl happ hacc htf
    | inr p =>
      rw [happ] at h
      by_cases hf : shouldFetchNext o e p.2
      · simp only [hf, if_true] at h
        exact absurd h (by simp)
      · simp only [hf, if_false] at h
        cases h
        calc ((p.1.length : Int)) = p.2 := appendPage_inr_len happ hacc
          _ ≤ l := appendPage_inr_le hl happ htf
  | cons resp rest ih =>
    intro e acc tf hacc htf r reqs h
    unfold loadRemainingPages at h
    cases happ : appendPage o e acc tf with
    | inl r' =>
      rw [happ] at h
      cases h
      exact appendPage_inl_le hl happ hacc htf
    | inr p =>
      rw [happ] at h
      by_cases hf : shouldFetchNext o e p.2
      · simp only [hf, if_true] at h
        cases resp with
        | error err =>
          dsimp only at h
          exact absurd h (by simp)
        | ok e' =>
          dsimp only at h
          cases hrec : loadRemainingPages o e' rest p.1 p.2 with
          | none =>
            rw [hrec] at h
            exact absurd h (by simp)
          | some q =>
            obtain ⟨res, reqs2⟩ := q
            rw [hrec] at h
            simp only [Option.some_inj, Prod.mk.injEq] at h
            rw [h.1] at hrec
            exact ih e' p.1 p.2 (appendPage_inr_len happ hacc)
              (appendPage_inr_le hl happ htf) r _ hrec
      · simp only [hf, if_false] at h
        cases h
        calc ((p.1.length : Int)) = p.2 := appendPage_inr_len happ hacc
          _ ≤ l := appendPage_inr_le hl happ htf

lemma query_le (hl : o.limit = some l) (h0 : 0 ≤ l) {responses : Responses ε α}
    {r : QueryResult α} {reqs : List Request}
    (h : query o responses = some (Except.ok r, reqs)) :
    (r.Results.length : Int) ≤ l := by
  unfold query at h
  cases responses with
  | nil => exact absurd h (by simp)
  | cons resp rest =>
    cases resp with
    | error err =>
      simp only at h
      cases h
    | ok e =>
      simp only at h
      cases hrec : loadRemainingPages o e rest ([] : List α) 0 with
      | none =>
        rw [hrec] at h
        exact absurd h (by simp)
      | some q =>
        obtain ⟨res, reqs2⟩ := q
        rw [hrec] at h
        simp only [Option.some_inj, Prod.mk.injEq] at h
        rw [h.1] at hrec
        exact loadRemainingPages_le hl rest e [] 0 (by simp) h0 r _ hrec

end LimitQuery

/-! ## Limit invariant for `queryStream` -/

section LimitStream

variable {α ε σ : Type} {o : QueryOpts} {l : Int} {cb : PageCb σ α}

lemma limitPage_le (hl : o.limit = some l) {page lp : List α} {tp : Int}
    (h : limitPage o page tp = some lp) : (lp.length : Int) ≤ l - tp := by
  unfold limitPage at h
  rw [hl] at h
  by_cases h1 : l - tp ≤ 0
  · simp only [h1, if_true] at h
    exact absurd h (by simp)
  · simp only [h1, if_false] at h
    by_cases h2 : (page.length : Int) > l - tp
    · simp only [h2, if_true] at h
      cases h
      simp only [List.length_take]
      push_cast
      omega
    · simp only [h2, if_false] at h
      cases h
      omega

lemma streamPage_inl_le (hl : o.limit = some l) {e : PageEnvelope α} {tp : Int} {s s' : σ}
    {sr : StreamResult} {tr : List (CallRecord α)}
    (h : streamPage o cb e tp s = Sum.inl (sr, tr, s')) (htp : tp ≤ l) :
    sr.totalProcessed ≤ l := by
  unfold streamPage at h
  split at h
  · -- page non-empty
    cases hlp : limitPage o e.Results tp with
    | none =>
      rw [hlp] at h
      simp only [Sum.inl.injEq, Prod.mk.injEq] at h
      obtain ⟨h1, -, -⟩ := h
      rw [← h1]
      exact htp
    | some lp =>
      rw [hlp] at h
      have hle := limitPage_le hl hlp
      simp only at h
      split at h
      · simp only [Sum.inl.injEq, Prod.mk.injEq] at h
        obtain ⟨h1, -, -⟩ := h
        rw [← h1]
        simp only
        omega
      · split at h
        · simp only [Sum.inl.injEq, Prod.mk.injEq] at h
          obtain ⟨h1, -, -⟩ := h
          rw [← h1]
          simp only
          omega
        · exact absurd h (by simp)
  · exact absurd h (by simp)

lemma streamPage_inr_le (hl : o.limit = some l) {e : PageEnvelope α} {tp tp' : Int} {s s' : σ}
    {tr : List (CallRecord α)}
    (h : streamPage o cb e tp s = Sum.inr (tp', s', tr)) (htp : tp ≤ l) :
    tp' ≤ l := by
  unfold streamPage at h
  split at h
  · cases hlp : limitPage o e.Results tp with
    | none =>
      rw [hlp] at h
      exact absurd h (by simp)
    | some lp =>
      rw [hlp] at h
      have hle := limitPage_le hl hlp
      simp only at h
      split at h
      · exact absurd h (by simp)
      · split at h
        · exact absurd h (by simp)
        · simp only [Sum.inr.injEq, Prod.mk.injEq] at h
          obtain ⟨h1, -, -⟩ := h
          omega
  · simp only [Sum.inr.injEq, Prod.mk.injEq] at h
    obtain ⟨h1, -, -⟩ := h
    omega

lemma processPages_le (hl : o.limit = some l) :
    ∀ (rest : Responses ε α) (e : PageEnvelope α) (tp : Int) (s : σ),
      tp ≤ l →
      ∀ sr reqs tr s', processPages o cb e rest tp s = some (Except.ok sr, reqs, tr, s') →
      sr.totalProcessed ≤ l := by
  intro rest
  induction rest with
  | nil =>
    intro e tp s htp sr reqs tr s' h
    unfold processPages at h
    cases hsp : streamPage o cb e tp s with
    | inl x =>
      obtain ⟨sr1, tr1, s1⟩ := x
      rw [hsp] at h
      dsimp only at h
      simp only [Option.some_inj, Prod.mk.injEq] at h
      rw [← (Except.ok.injEq ..).mp h.1]
      exact streamPage_inl_le hl hsp htp
    | inr x =>
      obtain ⟨tp1, s1, tr1⟩ := x
      rw [hsp] at h
      dsimp only at h
      split at h
      · exact absurd h (by simp)
      · simp only [Option.some_inj, Prod.mk.injEq] at h
        rw [← (Except.ok.injEq ..).mp h.1]
        exact streamPage_inr_le hl hsp htp
  | cons resp rest ih =>
    intro e tp s htp sr reqs tr s' h
    unfold processPages at h
    cases hsp : streamPage o cb e tp s with
    | inl x =>
      obtain ⟨sr1, tr1, s1⟩ := x
      rw [hsp] at h
      dsimp only at h
      simp only [Option.some_inj, Prod.mk.injEq] at h
      rw [← (Except.ok.injEq ..).mp h.1]
      exact streamPage_inl_le hl hsp htp
    | inr x =>
      obtain ⟨tp1, s1, tr1⟩ := x
      rw [hsp] at h
      dsimp only at h
      split at h
      · next hf =>
        have htp1 : tp1 ≤ l := streamPage_inr_le hl hsp htp
        cases resp with
        | error err =>
          dsimp only at h
          simp only [Option.some_inj, Prod.mk.injEq] at h
          exact absurd h.1 (by simp)
        | ok e' =>
          dsimp only at h
          cases hrec : processPages o cb e' rest tp1 s1 with
          | none =>
            rw [hrec] at h
            exact absurd h (by simp)
          | some q =>
            obtain ⟨res2, reqs2, tr2, s2⟩ := q
            rw [hrec] at h
            dsimp only at h
            simp only [Option.some_inj, Prod.mk.injEq] at h
            rw [h.1] at hrec
            exact ih e' tp1 s1 htp1 sr _ _ _ hrec
      · simp only [Option.some_inj, Prod.mk.injEq] at h
        rw [← (Except.ok.injEq ..).mp h.1]
        exact streamPage_inr_le hl hsp htp

lemma queryStream_le (hl : o.limit = some l) (h0 : 0 ≤ l) {responses : Responses ε α}
    {s0 : σ} {sr : StreamResult} {reqs : List Request} {tr : List (CallRecord α)} {sf : σ}
    (h : queryStream o cb s0 responses = some (Except.ok sr, reqs, tr, sf)) :
    sr.totalProcessed ≤ l := by
  unfold queryStream at h
  cases responses with
  | nil => exact absurd h (by simp)
  | cons resp rest =>
    cases resp with
    | error err =>
      dsimp only at h
      simp only [Option.some_inj, Prod.mk.injEq] at h
      exact absurd h.1 (by simp)
    | ok e =>
      dsimp only at h
      cases hrec : processPages o cb e rest 0 s0 with
      | none =>
        rw [hrec] at h
        exact absurd h (by simp)
      | some q =>
        obtain ⟨res2, reqs2, tr2, s2⟩ := q
        rw [hrec] at h
        dsimp only at h
        simp only [Option.some_inj, Prod.mk.injEq] at h
        rw [h.1] at hrec
        exact processPages_le hl rest e 0 s0 h0 sr _ _ _ hrec

end LimitStream

/-! ## A state invariant carried through `processPages`

The stream callback threads a state `σ`; any property `P s tp` of the
state and the processed count that is preserved by each callback
invocation holds of the final state and the final processed count. -/

section StateInv

variable {α ε σ : Type} {o : QueryOpts} {cb : PageCb σ α}

lemma streamPage_inv (P : σ → Int → Prop)
    (hcb : ∀ s (lp : List α) (pi : PageInfo) tp, pi.totalProcessed = tp + lp.length →
      P s tp → P (cb s lp pi).2 (tp + lp.length)) {e : PageEnvelope α} {tp : Int} {s : σ} :
    (∀ sr tr s', streamPage o cb e tp s = Sum.inl (sr, tr, s') → P s tp →
      P s' sr.totalProcessed) ∧
    (∀ tp' s' tr, streamPage o cb e tp s = Sum.inr (tp', s', tr) → P s tp →
      P s' tp') := by
  constructor
  · intro sr tr s' h hP
    unfold streamPage at h
    split at h
    · cases hlp : limitPage o e.Results tp with
      | none =>
        rw [hlp] at h
        simp only [Sum.inl.injEq, Prod.mk.injEq] at h
        rw [← h.1, ← h.2.2]
        exact hP
      | some lp =>
        rw [hlp] at h
        simp only at h
        split at h
        · simp only [Sum.inl.injEq, Prod.mk.injEq] at h
          rw [← h.1, ← h.2.2]
          exact hcb s lp _ tp rfl hP
        · split at h
          · simp only [Sum.inl.injEq, Prod.mk.injEq] at h
            rw [← h.1, ← h.2.2]
            exact hcb s lp _ tp rfl hP
          · exact absurd h (by simp)
    · exact absurd h (by simp)
  · intro tp' s' tr h hP
    unfold streamPage at h
    split at h
    · cases hlp : limitPage o e.Results tp with
      | none =>
        rw [hlp] at h
        exact absurd h (by simp)
      | some lp =>
        rw [hlp] at h
        simp only at h
        split at h
        · exact absurd h (by simp)
        · split at h
          · exact absurd h (by simp)
          · simp only [Sum.inr.injEq, Prod.mk.injEq] at h
            rw [← h.1, ← h.2.1]
            exact hcb s lp _ tp rfl hP
    · simp only [Sum.inr.injEq, Prod.mk.injEq] at h
      rw [← h.1, ← h.2.1]
      exact hP

lemma processPages_inv (P : σ → Int → Prop)
    (hcb : ∀ s (lp : List α) (pi : PageInfo) tp, pi.totalProcessed = tp + lp.length →
      P s tp → P (cb s lp pi).2 (tp + lp.length)) :
    ∀ (rest : Responses ε α) (e : PageEnvelope α) (tp : Int) (s : σ)
      res reqs tr s', processPages o cb e rest tp s = some (res, reqs, tr, s') →
      P s tp →
      ∃ tpf, P s' tpf ∧ ∀ sr, res = Except.ok sr → sr.totalProcessed = tpf := by
  intro rest
  induction rest with
  | nil =>
    intro e tp s res reqs tr s' h hP
    unfold processPages at h
    cases hsp : streamPage o cb e tp s with
    | inl x =>
      obtain ⟨sr1, tr1, s1⟩ := x
      rw [hsp] at h
      dsimp only at h
      simp only [Option.some_inj, Prod.mk.injEq] at h
      refine ⟨sr1.totalProcessed, ?_, ?_⟩
      · rw [← h.2.2.2]
        exact (streamPage_inv P hcb).1 sr1 tr1 s1 hsp hP
      · intro sr hres
        rw [← h.1] at hres
        rw [(Except.ok.injEq ..).mp hres.symm]
    | inr x =>
      obtain ⟨tp1, s1, tr1⟩ := x
      rw [hsp] at h
      dsimp only at h
      split at h
      · exact absurd h (by simp)
      · simp only [Option.some_inj, Prod.mk.injEq] at h
        refine ⟨tp1, ?_, ?_⟩
        · rw [← h.2.2.2]
          exact (streamPage_inv P hcb).2 tp1 s1 tr1 hsp hP
        · intro sr hres
          rw [← h.1] at hres
          rw [(Except.ok.injEq ..).mp hres.symm]
  | cons resp rest ih =>
    intro e tp s res reqs tr s' h hP
    unfold processPages at h
    cases hsp : streamPage o cb e tp s with
    | inl x =>
      obtain ⟨sr1, tr1, s1⟩ := x
      rw [hsp] at h
      dsimp only at h
      simp only [Option.some_inj, Prod.mk.injEq] at h
      refine ⟨sr1.totalProcessed, ?_, ?_⟩
      · rw [← h.2.2.2]
        exact (streamPage_inv P hcb).1 sr1 tr1 s1 hsp hP
      · intro sr hres
        rw [← h.1] at hres
        rw [(Except.ok.injEq ..).mp hres.symm]
    | inr x =>
      obtain ⟨tp1, s1, tr1⟩ := x
      rw [hsp] at h
      dsimp only at h
      have hP1 : P s1 tp1 := (streamPage_inv P hcb).2 tp1 s1 tr1 hsp hP
      split at h
      · next hf =>
        cases resp with
        | error err =>
          dsimp only at h
          simp only [Option.some_inj, Prod.mk.injEq] at h
          refine ⟨tp1, ?_, ?_⟩
          · rw [← h.2.2.2]
            exact hP1
          · intro sr hres
            rw [← h.1] at hres
            exact absurd hres (by simp)
        | ok e' =>
          dsimp only at h
          cases hrec : processPages o cb e' rest tp1 s1 with
          | none =>
            rw [hrec] at h
            exact absurd h (by simp)
          | some q =>
            obtain ⟨res2, reqs2, tr2, s2⟩ := q
            rw [hrec] at h
            dsimp only at h
            simp only [Option.some_inj, Prod.mk.injEq] at h
            obtain ⟨h1, -, -, h4⟩ := h
            rw [h1] at hrec
            obtain ⟨tpf, hPf, hok⟩ := ih e' tp1 s1 res reqs2 tr2 s2 hrec hP1
            exact ⟨tpf, h4 ▸ hPf, hok⟩
      · simp only [Option.some_inj, Prod.mk.injEq] at h
        refine ⟨tp1, ?_, ?_⟩
        · rw [← h.2.2.2]
          exact hP1
        · intro sr hres
          rw [← h.1] at hres
          rw [(Except.ok.injEq ..).mp hres.symm]

lemma queryStream_inv (P : σ → Int → Prop)
    (hcb : ∀ s (lp : List α) (pi : PageInfo) tp, pi.totalProcessed = tp + lp.length →
      P s tp → P (cb s lp pi).2 (tp + lp.length))
    {responses : Responses ε α} {s0 : σ} {res : Except ε StreamResult}
    {reqs : List Request} {tr : List (CallRecord α)} {sf : σ}
    (h : queryStream o cb s0 responses = some (res, reqs, tr, sf)) (hP : P s0 0) :
    ∃ tpf, P sf tpf ∧ ∀ sr, res = Except.ok sr → sr.totalProcessed = tpf := by
  unfold queryStream at h
  cases responses with
  | nil => exact absurd h (by simp)
  | cons resp rest =>
    cases resp with
    | error err =>
      dsimp only at h
      simp only [Option.some_inj, Prod.mk.injEq] at h
      exact ⟨0, h.2.2.2 ▸ hP, fun sr hres => absurd (h.1 ▸ hres) (by simp)⟩
    | ok e =>
      dsimp only at h
      cases hrec : processPages o cb e rest 0 s0 with
      | none =>
        rw [hrec] at h
        exact absurd h (by simp)
      | some q =>
        obtain ⟨res2, reqs2, tr2, s2⟩ := q
        rw [hrec] at h
        dsimp only at h
        simp only [Option.some_inj, Prod.mk.injEq] at h
        obtain ⟨h1, -, -, h4⟩ := h
        rw [h1] at hrec
        obtain ⟨tpf, hPf, hok⟩ := processPages_inv P hcb rest e 0 s0 res reqs2 tr2 s2 hrec hP
        exact ⟨tpf, h4 ▸ hPf, hok⟩

end StateInv

/-! ## Limit invariant for `queryBatch` -/

section LimitBatch

variable {α ε : Type} {o : QueryOpts} {l : Int}

lemma batchStep_growth (bs : Int) (bcb : BatchCb α) (trc : Option Int) :
    ∀ (page : List α) (st : BatchState α) c st',
      batchStep bs bcb trc st page = (c, st') →
      st'.totalProcessed + (st'.currentBatch.length : Int) ≤
        st.totalProcessed + st.currentBatch.length + page.length := by
  intro page
  induction page with
  | nil =>
    intro st c st' h
    unfold batchStep at h
    simp only [Prod.mk.injEq] at h
    rw [← h.2]
    simp
  | cons r rs ih =>
    intro st c st' h
    unfold batchStep at h
    dsimp only at h
    split at h
    · split at h
      · have h3 := ih _ c st' h
        simp only [List.length_append, List.length_cons, List.length_nil] at h3 ⊢
        push_cast at h3 ⊢
        omega
      · simp only [Prod.mk.injEq] at h
        rw [← h.2]
        simp only [List.length_append, List.length_cons, List.length_nil]
        push_cast
        omega
    · have h3 := ih _ c st' h
      simp only [List.length_append, List.length_cons, List.length_nil] at h3 ⊢
      push_cast at h3 ⊢
      omega

lemma flushBatch_total_le (bcb : BatchCb α) (sr : StreamResult) (st : BatchState α) :
    (flushBatch bcb sr st).totalProcessed ≤
      st.totalProcessed + (st.currentBatch.length : Int) := by
  unfold flushBatch
  split
  · simp
  · simp

lemma queryBatch_le (hl : o.limit = some l) (h0 : 0 ≤ l) {batchSize : Option Int}
    {bcb : BatchCb α} {responses : Responses ε α} {br : BatchResult}
    {reqs : List Request} {calls : List (BatchCall α)}
    (h : queryBatch o batchSize bcb responses = some (Except.ok br, reqs, calls)) :
    br.totalProcessed ≤ l := by
  unfold queryBatch at h
  dsimp only at h
  cases hqs : queryStream o
      (fun st page pi => batchStep (effectiveBatchSize o batchSize) bcb pi.totalResultCount st page)
      (⟨[], [], 0, []⟩ : BatchState α) responses with
  | none =>
    rw [hqs] at h
    exact absurd h (by simp)
  | some q =>
    obtain ⟨res2, reqs2, tr2, st2⟩ := q
    rw [hqs] at h
    cases res2 with
    | error err =>
      dsimp only at h
      simp only [Option.some_inj, Prod.mk.injEq] at h
      exact absurd h.1 (by simp)
    | ok sr =>
      dsimp only at h
      simp only [Option.some_inj, Prod.mk.injEq] at h
      obtain ⟨h1, -, -⟩ := h
      have hsr : sr.totalProcessed ≤ l := queryStream_le hl h0 hqs
      have hinv := queryStream_inv
        (fun (st : BatchState α) tp => st.totalProcessed + (st.currentBatch.length : Int) ≤ tp)
        (by
          intro s lp pi tp hpi hP
          cases hbs : batchStep (effectiveBatchSize o batchSize) bcb pi.totalResultCount s lp with
          | mk c st' =>
            have := batchStep_growth (effectiveBatchSize o batchSize) bcb
              pi.totalResultCount lp s c st' hbs
            simp only [hbs]
            omega)
        hqs (by simp)
      obtain ⟨tpf, hPf, hok⟩ := hinv
      have htpf : sr.totalProcessed = tpf := hok sr rfl
      have hflush := flushBatch_total_le bcb sr st2
      have hbr : br.totalProcessed = (flushBatch bcb sr st2).totalProcessed := by
        rw [← (Except.ok.injEq ..).mp h1]
      rw [hbr]
      omega

end LimitBatch

/-! ## Malformed envelopes stop pagination -/

section Malformed

variable {α ε σ : Type}

lemma shouldFetchNext_malformed {e : PageEnvelope α}
    (hm : e.StartIndex = none ∨ e.TotalResultCount = none) (o : QueryOpts) (tf : Int) :
    shouldFetchNext o e tf = false := by
  unfold shouldFetchNext isValidPagination numTruthy
  cases hm with
  | inl h =>
    rw [h]
    simp
  | inr h =>
    rw [h]
    cases e.StartIndex <;> simp

lemma appendPage_first (o : QueryOpts) (e : PageEnvelope α) :
    appendPage o e [] 0 =
        Sum.inl ⟨firstPageResults o e, o.start, (firstPageResults o e).length,
          e.TotalResultCount⟩ ∨
    appendPage o e [] 0 =
        Sum.inr (firstPageResults o e, ((firstPageResults o e).length : Int)) := by
  unfold appendPage firstPageResults
  by_cases hres : 0 < e.Results.length
  · rw [if_pos hres]
    cases hlim : o.limit with
    | none =>
      right
      simp
    | some l =>
      dsimp only
      by_cases h1 : l - 0 ≤ 0
      · rw [if_pos h1]
        left
        have : l.toNat = 0 := by omega
        simp [this]
      · rw [if_neg h1]
        by_cases h2 : (e.Results.length : Int) > l - 0
        · rw [if_pos h2]
          left
          have : l - 0 = l := by omega
          simp [this]
        · rw [if_neg h2]
          right
          have htake : e.Results.take l.toNat = e.Results :=
            List.take_of_length_le (by omega)
          rw [htake]
          have h0 : (0 : Int) + e.Results.length = e.Results.length := by omega
          rw [h0]
          simp
  · rw [if_neg hres]
    right
    have hnil : e.Results = [] := by
      cases hr : e.Results with
      | nil => rfl
      | cons a as => rw [hr] at hres; simp at hres
    rw [hnil]
    cases o.limit <;> simp

lemma loadRemainingPages_no_fetch (o : QueryOpts) (e : PageEnvelope α)
    (rest : Responses ε α) (hnf : ∀ tf, shouldFetchNext o e tf = false) :
    loadRemainingPages o e rest [] 0 =
      some (Except.ok ⟨firstPageResults o e, o.start, (firstPageResults o e).length,
        e.TotalResultCount⟩, []) := by
  cases rest with
  | nil =>
    unfold loadRemainingPages
    cases appendPage_first o e with
    | inl h => rw [h]
    | inr h =>
      rw [h]
      dsimp only
      rw [hnf]
      simp
  | cons resp rest' =>
    unfold loadRemainingPages
    cases appendPage_first o e with
    | inl h => rw [h]
    | inr h =>
      rw [h]
      dsimp only
      rw [hnf]
      simp

lemma query_malformed_first (o : QueryOpts) (e : PageEnvelope α) (rest : Responses ε α)
    (hm : e.StartIndex = none ∨ e.TotalResultCount = none) :
    query o (Except.ok e :: rest) =
      some (Except.ok ⟨firstPageResults o e, o.start, (firstPageResults o e).length,
        e.TotalResultCount⟩, [⟨o.start, optimalPageSize o⟩]) := by
  unfold query
  dsimp only
  rw [loadRemainingPages_no_fetch o e rest (shouldFetchNext_malformed hm o)]

lemma processPages_no_fetch (o : QueryOpts) (cb : PageCb σ α) (e : PageEnvelope α)
    (rest : Responses ε α) (tp : Int) (s : σ) (hnf : ∀ t, shouldFetchNext o e t = false) :
    ∃ sr tr sf, processPages o cb e rest tp s = some (Except.ok sr, [], tr, sf) := by
  cases rest with
  | nil =>
    cases hsp : streamPage o cb e tp s with
    | inl x =>
      obtain ⟨sr1, tr1, s1⟩ := x
      exact ⟨sr1, tr1, s1, by unfold processPages; rw [hsp]⟩
    | inr x =>
      obtain ⟨tp1, s1, tr1⟩ := x
      refine ⟨⟨tp1, true⟩, tr1, s1, ?_⟩
      unfold processPages
      rw [hsp]
      dsimp only
      rw [hnf]
      simp
  | cons resp rest' =>
    cases hsp : streamPage o cb e tp s with
    | inl x =>
      obtain ⟨sr1, tr1, s1⟩ := x
      exact ⟨sr1, tr1, s1, by unfold processPages; rw [hsp]⟩
    | inr x =>
      obtain ⟨tp1, s1, tr1⟩ := x
      refine ⟨⟨tp1, true⟩, tr1, s1, ?_⟩
      unfold processPages
      rw [hsp]
      dsimp only
      rw [hnf]
      simp

lemma queryStream_malformed_first (o : QueryOpts) (cb : PageCb σ α) (s0 : σ)
    (e : PageEnvelope α) (rest : Responses ε α)
    (hm : e.StartIndex = none ∨ e.TotalResultCount = none) :
    ∃ sr tr sf, queryStream o cb s0 (Except.ok e :: rest) =
      some (Except.ok sr, [⟨o.start, optimalPageSize o⟩], tr, sf) := by
  obtain ⟨sr, tr, sf, hpp⟩ :=
    processPages_no_fetch o cb e rest 0 s0 (shouldFetchNext_malformed hm o)
  refine ⟨sr, tr, sf, ?_⟩
  unfold queryStream
  dsimp only
  rw [hpp]

end Malformed

/-! ## Error propagation -/

section Errors

variable {α ε : Type} {o : QueryOpts}

lemma loadRemainingPages_error_mem :
    ∀ (rest : Responses ε α) (e : PageEnvelope α) (acc : List α) (tf : Int)
      (err : ε) (reqs : List Request),
      loadRemainingPages o e rest acc tf = some (Except.error err, reqs) →
      Except.error err ∈ rest := by
  intro rest
  induction rest with
  | nil =>
    intro e acc tf err reqs h
    unfold loadRemainingPages at h
    cases happ : appendPage o e acc tf with
    | inl r =>
      rw [happ] at h
      dsimp only at h
      simp only [Option.some_inj, Prod.mk.injEq] at h
      exact absurd h.1 (by simp)
    | inr p =>
      obtain ⟨acc', tf'⟩ := p
      rw [happ] at h
      dsimp only at h
      split at h
      · exact absurd h (by simp)
      · simp only [Option.some_inj, Prod.mk.injEq] at h
        exact absurd h.1 (by simp)
  | cons resp rest ih =>
    intro e acc tf err reqs h
    unfold loadRemainingPages at h
    cases happ : appendPage o e acc tf with
    | inl r =>
      rw [happ] at h
      dsimp only at h
      simp only [Option.some_inj, Prod.mk.injEq] at h
      exact absurd h.1 (by simp)
    | inr p =>
      obtain ⟨acc', tf'⟩ := p
      rw [happ] at h
      dsimp only at h
      split at h
      · cases resp with
        | error err2 =>
          dsimp only at h
          simp only [Option.some_inj, Prod.mk.injEq] at h
          rw [(Except.error.injEq ..).mp h.1]
          exact List.mem_cons_self _ _
        | ok e' =>
          dsimp only at h
          cases hrec : loadRemainingPages o e' rest acc' tf' with
          | none =>
            rw [hrec] at h
            exact absurd h (by simp)
          | some q =>
            obtain ⟨res2, reqs2⟩ := q
            rw [hrec] at h
            dsimp only at h
            simp only [Option.some_inj, Prod.mk.injEq] at h
            rw [h.1] at hrec
            exact List.mem_cons_of_mem _ (ih e' acc' tf' err reqs2 hrec)
      · simp only [Option.some_inj, Prod.mk.injEq] at h
        exact absurd h.1 (by simp)

lemma query_error_mem {responses : Responses ε α} {err : ε} {reqs : List Request}
    (h : query o responses = some (Except.error err, reqs)) :
    Except.error err ∈ responses := by
  unfold query at h
  cases responses with
  | nil => exact absurd h (by simp)
  | cons resp rest =>
    cases resp with
    | error err2 =>
      dsimp only at h
      simp only [Option.some_inj, Prod.mk.injEq] at h
      rw [(Except.error.injEq ..).mp h.1]
      exact List.mem_cons_self _ _
    | ok e =>
      dsimp only at h
      cases hrec : loadRemainingPages o e rest ([] : List α) 0 with
      | none =>
        rw [hrec] at h
        exact absurd h (by simp)
      | some q =>
        obtain ⟨res2, reqs2⟩ := q
        rw [hrec] at h
        dsimp only at h
        simp only [Option.some_inj, Prod.mk.injEq] at h
        rw [h.1] at hrec
        exact List.mem_cons_of_mem _ (loadRemainingPages_error_mem rest e [] 0 err reqs2 hrec)

lemma loadRemainingPages_midrun_error {e : PageEnvelope α} {acc acc' : List α}
    {tf tf' : Int} (err : ε) (rest' : Responses ε α)
    (happ : appendPage o e acc tf = Sum.inr (acc', tf'))
    (hf : shouldFetchNext o e tf' = true) :
    loadRemainingPages o e (Except.error err :: rest') acc tf =
      some (Except.error err, [⟨nextStart o e, optimalPageSize o⟩]) := by
  unfold loadRemainingPages
  rw [happ]
  dsimp only
  rw [hf]
  simp

end Errors

/-! ## The stream callback trace -/

section StreamTrace

variable {α ε σ : Type} {o : QueryOpts} {cb : PageCb σ α}

lemma traceTotal_nil : traceTotal ([] : List (CallRecord α)) = 0 := rfl

lemma traceTotal_append (tr1 tr2 : List (CallRecord α)) :
    traceTotal (tr1 ++ tr2) = traceTotal tr1 + traceTotal tr2 := by
  unfold traceTotal
  rw [List.map_append, List.sum_append]

lemma streamPage_inl_trace {e : PageEnvelope α} {tp : Int} {s s' : σ}
    {sr : StreamResult} {tr : List (CallRecord α)}
    (h : streamPage o cb e tp s = Sum.inl (sr, tr, s')) :
    sr.totalProcessed = tp + traceTotal tr ∧
    (sr.completed = false ↔ ∃ c, tr.getLast? = some c ∧ c.decision = false) ∧
    (∀ c ∈ tr.dropLast, c.decision = true) := by
  unfold streamPage at h
  split at h
  · cases hlp : limitPage o e.Results tp with
    | none =>
      rw [hlp] at h
      simp only [Sum.inl.injEq, Prod.mk.injEq] at h
      obtain ⟨h1, h2, -⟩ := h
      rw [← h1, ← h2]
      refine ⟨by simp [traceTotal_nil], by simp, by simp⟩
    | some lp =>
      rw [hlp] at h
      simp only at h
      split at h
      · next hc =>
        simp only [Bool.not_eq_eq_eq_not, Bool.not_true] at hc
        simp only [Sum.inl.injEq, Prod.mk.injEq] at h
        obtain ⟨h1, h2, -⟩ := h
        rw [← h1, ← h2]
        refine ⟨by simp [traceTotal], ?_, by simp⟩
        simp only [List.getLast?_singleton, Option.some_inj]
        constructor
        · intro
          exact ⟨_, rfl, hc⟩
        · intro
          trivial
      · split at h
        · next hc _ =>
          simp only [Bool.not_eq_eq_eq_not, Bool.not_true, Bool.not_eq_false] at hc
          simp only [Sum.inl.injEq, Prod.mk.injEq] at h
          obtain ⟨h1, h2, -⟩ := h
          rw [← h1, ← h2]
          refine ⟨by simp [traceTotal], ?_, by simp⟩
          simp only [List.getLast?_singleton, Option.some_inj]
          constructor
          · intro hfalse
            exact absurd hfalse (by simp)
          · rintro ⟨c, hceq, hcdec⟩
            rw [← hceq] at hcdec
            simp only at hcdec
            exact absurd hcdec (by simp [hc])
        · exact absurd h (by simp)
  · exact absurd h (by simp)

lemma streamPage_inr_trace {e : PageEnvelope α} {tp tp' : Int} {s s' : σ}
    {tr : List (CallRecord α)}
    (h : streamPage o cb e tp s = Sum.inr (tp', s', tr)) :
    tp' = tp + traceTotal tr ∧ ∀ c ∈ tr, c.decision = true := by
  unfold streamPage at h
  split at h
  · cases hlp : limitPage o e.Results tp with
    | none =>
      rw [hlp] at h
      exact absurd h (by simp)
    | some lp =>
      rw [hlp] at h
      simp only at h
      split at h
      · exact absurd h (by simp)
      · split at h
        · exact absurd h (by simp)
        · next hc _ =>
          simp only [Bool.not_eq_eq_eq_not, Bool.not_true, Bool.not_eq_false] at hc
          simp only [Sum.inr.injEq, Prod.mk.injEq] at h
          obtain ⟨h1, -, h3⟩ := h
          rw [← h1, ← h3]
          exact ⟨by simp [traceTotal], by simp [hc]⟩
  · simp only [Sum.inr.injEq, Prod.mk.injEq] at h
    obtain ⟨h1, -, h3⟩ := h
    rw [← h1, ← h3]
    exact ⟨by simp [traceTotal_nil], by simp⟩

lemma processPages_trace :
    ∀ (rest : Responses ε α) (e : PageEnvelope α) (tp : Int) (s : σ)
      (res : Except ε StreamResult) reqs tr s',
      processPages o cb e rest tp s = some (res, reqs, tr, s') →
      (∀ sr, res = Except.ok sr → sr.totalProcessed = tp + traceTotal tr ∧
        (sr.completed = false ↔ ∃ c, tr.getLast? = some c ∧ c.decision = false)) ∧
      (∀ c ∈ tr.dropLast, c.decision = true) := by
  intro rest
  induction rest with
  | nil =>
    intro e tp s res reqs tr s' h
    unfold processPages at h
    cases hsp : streamPage o cb e tp s with
    | inl x =>
      obtain ⟨sr1, tr1, s1⟩ := x
      rw [hsp] at h
      dsimp only at h
      simp only [Option.some_inj, Prod.mk.injEq] at h
      obtain ⟨h1, -, h3, -⟩ := h
      obtain ⟨ht1, ht2, ht3⟩ := streamPage_inl_trace hsp
      rw [← h1, ← h3]
      refine ⟨?_, ht3⟩
      intro sr hres
      rw [(Except.ok.injEq ..).mp hres.symm]
      exact ⟨ht1, ht2⟩
    | inr x =>
      obtain ⟨tp1, s1, tr1⟩ := x
      rw [hsp] at h
      dsimp only at h
      split at h
      · exact absurd h (by simp)
      · simp only [Option.some_inj, Prod.mk.injEq] at h
        obtain ⟨h1, -, h3, -⟩ := h
        obtain ⟨ht1, ht2⟩ := streamPage_inr_trace hsp
        rw [← h1, ← h3]
        refine ⟨?_, fun c hc => ht2 c (List.mem_of_mem_dropLast hc)⟩
        intro sr hres
        rw [(Except.ok.injEq ..).mp hres.symm]
        refine ⟨ht1, ?_⟩
        simp only
        constructor
        · intro hfalse
          exact absurd hfalse (by simp)
        · rintro ⟨c, hceq, hcdec⟩
          exact absurd (ht2 c (List.mem_of_mem_getLast? (by rw [hceq]; exact rfl)))
            (by simp [hcdec])
  | cons resp rest ih =>
    intro e tp s res reqs tr s' h
    unfold processPages at h
    cases hsp : streamPage o cb e tp s with
    | inl x =>
      obtain ⟨sr1, tr1, s1⟩ := x
      rw [hsp] at h
      dsimp only at h
      simp only [Option.some_inj, Prod.mk.injEq] at h
      obtain ⟨h1, -, h3, -⟩ := h
      obtain ⟨ht1, ht2, ht3⟩ := streamPage_inl_trace hsp
      rw [← h1, ← h3]
      refine ⟨?_, ht3⟩
      intro sr hres
      rw [(Except.ok.injEq ..).mp hres.symm]
      exact ⟨ht1, ht2⟩
    | inr x =>
      obtain ⟨tp1, s1, tr1⟩ := x
      rw [hsp] at h
      dsimp only at h
      obtain ⟨ht1, ht2⟩ := streamPage_inr_trace hsp
      split at h
      · next hf =>
        cases resp with
        | error err =>
          dsimp only at h
          simp only [Option.some_inj, Prod.mk.injEq] at h
          obtain ⟨h1, -, h3, -⟩ := h
          rw [← h1, ← h3]
          refine ⟨fun sr hres => absurd hres (by simp), ?_⟩
          intro c hc
          exact ht2 c (List.mem_of_mem_dropLast hc)
        | ok e' =>
          dsimp only at h
          cases hrec : processPages o cb e' rest tp1 s1 with
          | none =>
            rw [hrec] at h
            exact absurd h (by simp)
          | some q =>
            obtain ⟨res2, reqs2, tr2, s2⟩ := q
            rw [hrec] at h
            dsimp only at h
            simp only [Option.some_inj, Prod.mk.injEq] at h
            obtain ⟨h1, -, h3, -⟩ := h
            rw [h1] at hrec
            obtain ⟨ih1, ih2⟩ := ih e' tp1 s1 res reqs2 tr2 s2 hrec
            rw [← h3]
            by_cases htr2 : tr2 = []
            · subst htr2
              refine ⟨?_, ?_⟩
              · intro sr hres
                obtain ⟨ia, ib⟩ := ih1 sr hres
                refine ⟨?_, ?_⟩
                · rw [ia, traceTotal_append, traceTotal_nil, ht1]
                  ring
                · rw [ib]
                  simp only [List.getLast?_nil, List.append_nil]
                  constructor
                  · rintro ⟨c, hceq, -⟩
                    exact absurd hceq (by simp)
                  · rintro ⟨c, hceq, hcdec⟩
                    exact absurd (ht2 c (List.mem_of_mem_getLast? (by rw [hceq]; exact rfl)))
                      (by simp [hcdec])
              · intro c hc
                rw [List.append_nil] at hc
                exact ht2 c (List.mem_of_mem_dropLast hc)
            · refine ⟨?_, ?_⟩
              · intro sr hres
                obtain ⟨ia, ib⟩ := ih1 sr hres
                refine ⟨?_, ?_⟩
                · rw [ia, traceTotal_append, ht1]
                  ring
                · rw [ib, List.getLast?_append_of_ne_nil _ htr2]
              · intro c hc
                rw [List.dropLast_append_of_ne_nil _ htr2] at hc
                rcases List.mem_append.mp hc with hmem | hmem
                · exact ht2 c hmem
                · exact ih2 c hmem
      · simp only [Option.some_inj, Prod.mk.injEq] at h
        obtain ⟨h1, -, h3, -⟩ := h
        rw [← h1, ← h3]
        refine ⟨?_, fun c hc => ht2 c (List.mem_of_mem_dropLast hc)⟩
        intro sr hres
        rw [(Except.ok.injEq ..).mp hres.symm]
        refine ⟨ht1, ?_⟩
        simp only
        constructor
        · intro hfalse
          exact absurd hfalse (by simp)
        · rintro ⟨c, hceq, hcdec⟩
          exact absurd (ht2 c (List.mem_of_mem_getLast? (by rw [hceq]; exact rfl)))
            (by simp [hcdec])

lemma queryStream_trace {s0 : σ} {responses : Responses ε α} {sr : StreamResult}
    {reqs : List Request} {tr : List (CallRecord α)} {sf : σ}
    (h : queryStream o cb s0 responses = some (Except.ok sr, reqs, tr, sf)) :
    sr.totalProcessed = traceTotal tr ∧
    (sr.completed = false ↔ ∃ c, tr.getLast? = some c ∧ c.decision = false) ∧
    (∀ c ∈ tr.dropLast, c.decision = true) := by
  unfold queryStream at h
  cases responses with
  | nil => exact absurd h (by simp)
  | cons resp rest =>
    cases resp with
    | error err =>
      dsimp only at h
      simp only [Option.some_inj, Prod.mk.injEq] at h
      exact absurd h.1 (by simp)
    | ok e =>
      dsimp only at h
      cases hrec : processPages o cb e rest 0 s0 with
      | none =>
        rw [hrec] at h
        exact absurd h (by simp)
      | some q =>
        obtain ⟨res2, reqs2, tr2, s2⟩ := q
        rw [hrec] at h
        dsimp only at h
        simp only [Option.some_inj, Prod.mk.injEq] at h
        obtain ⟨h1, -, h3, -⟩ := h
        rw [h1] at hrec
        obtain ⟨p1, p2⟩ := processPages_trace rest e 0 s0 (Except.ok sr) reqs2 tr2 s2 hrec
        obtain ⟨pa, pb⟩ := p1 sr rfl
        rw [← h3]
        exact ⟨by rw [pa]; ring, pb, p2⟩

end StreamTrace

/-! ## `streamPage` without a limit -/

section NoLimit

variable {α σ : Type} {o : QueryOpts} {cb : PageCb σ α}

lemma streamPage_no_limit (hlim : o.limit = none) {e : PageEnvelope α}
    (hne : 0 < e.Results.length) (tp : Int) (s : σ) :
    streamPage o cb e tp s =
      (if (cb s e.Results ⟨e.StartIndex, e.Results.length, e.TotalResultCount,
            tp + e.Results.length⟩).1 = true
       then Sum.inr (tp + e.Results.length,
         (cb s e.Results ⟨e.StartIndex, e.Results.length, e.TotalResultCount,
           tp + e.Results.length⟩).2,
         [⟨e.Results, ⟨e.StartIndex, e.Results.length, e.TotalResultCount,
           tp + e.Results.length⟩,
           (cb s e.Results ⟨e.StartIndex, e.Results.length, e.TotalResultCount,
             tp + e.Results.length⟩).1⟩])
       else Sum.inl (⟨tp + e.Results.length, false⟩,
         [⟨e.Results, ⟨e.StartIndex, e.Results.length, e.TotalResultCount,
           tp + e.Results.length⟩,
           (cb s e.Results ⟨e.StartIndex, e.Results.length, e.TotalResultCount,
             tp + e.Results.length⟩).1⟩],
         (cb s e.Results ⟨e.StartIndex, e.Results.length, e.TotalResultCount,
           tp + e.Results.length⟩).2)) := by
  unfold streamPage limitPage
  rw [if_pos hne, hlim]
  dsimp only
  by_cases hc : (cb s e.Results ⟨e.StartIndex, e.Results.length, e.TotalResultCount,
      tp + e.Results.length⟩).1 = true
  · rw [if_pos hc, hc]
    have hlr : limitReached o (tp + (e.Results.length : Int)) = false := by
      unfold limitReached
      rw [hlim]
    simp [hlr]
  · rw [if_neg hc]
    simp only [Bool.not_eq_true] at hc
    simp [hc]

end NoLimit

/-! ## Shape of the batch-callback trace -/

section BatchShape

variable {α ε : Type}

lemma batch_inv_push (bs : Int) (hbs : 1 ≤ bs) {st : BatchState α} (cur : List α)
    (bi : BatchInfo) (c0 : Bool) (tp' : Int)
    (hI : (st.currentBatch.length : Int) < bs ∧
      (∀ cl ∈ st.calls, cl.records.length = cl.info.batchSize ∧
        (cl.records.length : Int) = bs) ∧
      st.calls.map (fun cl => cl.info.batchNumber) = List.range' 1 st.calls.length ∧
      st.calls.length = st.batches.length)
    (hsz : (cur.length : Int) = bs)
    (hnum : bi.batchNumber = st.batches.length + 1)
    (hbsz : bi.batchSize = cur.length) :
    (((⟨st.batches ++ [cur], [], tp', st.calls ++ [⟨cur, bi, c0⟩]⟩ :
        BatchState α).currentBatch.length : Int) < bs ∧
      (∀ cl ∈ (⟨st.batches ++ [cur], [], tp', st.calls ++ [⟨cur, bi, c0⟩]⟩ :
          BatchState α).calls, cl.records.length = cl.info.batchSize ∧
        (cl.records.length : Int) = bs) ∧
      (⟨st.batches ++ [cur], [], tp', st.calls ++ [⟨cur, bi, c0⟩]⟩ :
          BatchState α).calls.map (fun cl => cl.info.batchNumber) =
        List.range' 1 (⟨st.batches ++ [cur], [], tp', st.calls ++ [⟨cur, bi, c0⟩]⟩ :
          BatchState α).calls.length ∧
      (⟨st.batches ++ [cur], [], tp', st.calls ++ [⟨cur, bi, c0⟩]⟩ :
          BatchState α).calls.length =
        (⟨st.batches ++ [cur], [], tp', st.calls ++ [⟨cur, bi, c0⟩]⟩ :
          BatchState α).batches.length) := by
  obtain ⟨hI1, hI2, hI3, hI4⟩ := hI
  refine ⟨by simpa using hbs, ?_, ?_, ?_⟩
  · intro cl hcl
    rcases List.mem_append.mp hcl with hm | hm
    · exact hI2 cl hm
    · rw [List.mem_singleton.mp hm]
      exact ⟨by rw [hbsz], hsz⟩
  · simp only [List.map_append, List.map_cons, List.map_nil, List.length_append,
      List.length_cons, List.length_nil]
    rw [hI3, hnum, List.range'_concat]
    simp [hI4, Nat.add_comm]
  · simp [hI4]

lemma batchStep_inv (bs : Int) (hbs : 1 ≤ bs) (bcb : BatchCb α) (trc : Option Int) :
    ∀ (page : List α) (st : BatchState α) c st', batchStep bs bcb trc st page = (c, st') →
      ((st.currentBatch.length : Int) < bs ∧
       (∀ cl ∈ st.calls, cl.records.length = cl.info.batchSize ∧
         (cl.records.length : Int) = bs) ∧
       st.calls.map (fun cl => cl.info.batchNumber) = List.range' 1 st.calls.length ∧
       st.calls.length = st.batches.length) →
      ((st'.currentBatch.length : Int) < bs ∧
       (∀ cl ∈ st'.calls, cl.records.length = cl.info.batchSize ∧
         (cl.records.length : Int) = bs) ∧
       st'.calls.map (fun cl => cl.info.batchNumber) = List.range' 1 st'.calls.length ∧
       st'.calls.length = st'.batches.length) := by
  intro page
  induction page with
  | nil =>
    intro st c st' h hI
    unfold batchStep at h
    simp only [Prod.mk.injEq] at h
    rw [← h.2]
    exact hI
  | cons r rs ih =>
    intro st c st' h hI
    unfold batchStep at h
    dsimp only at h
    split at h
    · next htrig =>
      have hsz : (((st.currentBatch ++ [r]).length : Int)) = bs := by
        simp only [List.length_append, List.length_cons, List.length_nil] at htrig ⊢
        push_cast at htrig ⊢
        omega
      have hI' := @batch_inv_push _ bs hbs st (st.currentBatch ++ [r])
        ⟨st.batches.length + 1, (st.currentBatch ++ [r]).length,
          st.totalProcessed + (st.currentBatch ++ [r]).length, trc⟩
        (bcb (st.currentBatch ++ [r])
          ⟨st.batches.length + 1, (st.currentBatch ++ [r]).length,
            st.totalProcessed + (st.currentBatch ++ [r]).length, trc⟩)
        (st.totalProcessed + (st.currentBatch ++ [r]).length)
        hI hsz rfl rfl
      split at h
      · exact ih _ c st' h hI'
      · simp only [Prod.mk.injEq] at h
        rw [← h.2]
        exact hI'
    · next htrig =>
      obtain ⟨hI1, hI2, hI3, hI4⟩ := hI
      refine ih _ c st' h ⟨?_, hI2, hI3, hI4⟩
      simp only [List.length_append, List.length_cons, List.length_nil] at htrig ⊢
      push_cast at htrig ⊢
      omega

lemma flushBatch_calls_pos (bcb : BatchCb α) (sr : StreamResult) (st : BatchState α)
    (h : 0 < st.currentBatch.length) :
    (flushBatch bcb sr st).calls = st.calls ++
      [⟨st.currentBatch,
        ⟨st.batches.length + 1, st.currentBatch.length,
          st.totalProcessed + st.currentBatch.length, some sr.totalProcessed⟩,
        bcb st.currentBatch
          ⟨st.batches.length + 1, st.currentBatch.length,
            st.totalProcessed + st.currentBatch.length, some sr.totalProcessed⟩⟩] := by
  unfold flushBatch
  rw [if_pos h]

lemma flushBatch_batches_pos (bcb : BatchCb α) (sr : StreamResult) (st : BatchState α)
    (h : 0 < st.currentBatch.length) :
    (flushBatch bcb sr st).batches = st.batches ++ [st.currentBatch] := by
  unfold flushBatch
  rw [if_pos h]

lemma flushBatch_total_pos (bcb : BatchCb α) (sr : StreamResult) (st : BatchState α)
    (h : 0 < st.currentBatch.length) :
    (flushBatch bcb sr st).totalProcessed =
      st.totalProcessed + st.currentBatch.length := by
  unfold flushBatch
  rw [if_pos h]

lemma flushBatch_neg (bcb : BatchCb α) (sr : StreamResult) (st : BatchState α)
    (h : ¬0 < st.currentBatch.length) :
    flushBatch bcb sr st = st := by
  unfold flushBatch
  rw [if_neg h]

lemma queryBatch_stream_inv {o : QueryOpts} (bs : Int) (hbs : 1 ≤ bs) (bcb : BatchCb α)
    {responses : Responses ε α} {res : Except ε StreamResult} {reqs2 : List Request}
    {tr2 : List (CallRecord α)} {st2 : BatchState α}
    (hqs : queryStream o
      (fun st page pi => batchStep bs bcb pi.totalResultCount st page)
      (⟨[], [], 0, []⟩ : BatchState α) responses = some (res, reqs2, tr2, st2)) :
    (st2.currentBatch.length : Int) < bs ∧
    (∀ cl ∈ st2.calls, cl.records.length = cl.info.batchSize ∧
      (cl.records.length : Int) = bs) ∧
    st2.calls.map (fun cl => cl.info.batchNumber) = List.range' 1 st2.calls.length ∧
    st2.calls.length = st2.batches.length := by
  have hinv := queryStream_inv
    (fun (st : BatchState α) _ =>
      (st.currentBatch.length : Int) < bs ∧
      (∀ cl ∈ st.calls, cl.records.length = cl.info.batchSize ∧
        (cl.records.length : Int) = bs) ∧
      st.calls.map (fun cl => cl.info.batchNumber) = List.range' 1 st.calls.length ∧
      st.calls.length = st.batches.length)
    (by
      intro s lp pi tp hpi hP
      cases hbsr : batchStep bs bcb pi.totalResultCount s lp with
      | mk c st' =>
        have := batchStep_inv bs hbs bcb pi.totalResultCount lp s c st' hbsr hP
        simp only [hbsr]
        exact this)
    hqs ⟨by simpa using hbs, by simp, by simp, by simp⟩
  obtain ⟨tpf, hP, -⟩ := hinv
  exact hP

lemma queryBatch_calls_shape {o : QueryOpts} (bs : Int) (hbs : 1 ≤ bs) (bcb : BatchCb α)
    {responses : Responses ε α} {br : BatchResult} {reqs : List Request}
    {tr : List (BatchCall α)}
    (h : queryBatch o (some bs) bcb responses = some (Except.ok br, reqs, tr)) :
    (∀ c ∈ tr.dropLast, c.records.length = c.info.batchSize ∧
      (c.records.length : Int) = bs) ∧
    (∀ c, tr.getLast? = some c → c.records.length = c.info.batchSize ∧
      1 ≤ c.records.length ∧ (c.records.length : Int) ≤ bs) ∧
    tr.map (fun c => c.info.batchNumber) = List.range' 1 tr.length ∧
    br.totalBatches = tr.length := by
  unfold queryBatch at h
  dsimp only at h
  have hebs : effectiveBatchSize o (some bs) = bs := rfl
  rw [hebs] at h
  cases hqs : queryStream o
      (fun st page pi => batchStep bs bcb pi.totalResultCount st page)
      (⟨[], [], 0, []⟩ : BatchState α) responses with
  | none =>
    rw [hqs] at h
    exact absurd h (by simp)
  | some q =>
    obtain ⟨res2, reqs2, tr2, st2⟩ := q
    rw [hqs] at h
    cases res2 with
    | error err =>
      dsimp only at h
      simp only [Option.some_inj, Prod.mk.injEq] at h
      exact absurd h.1 (by simp)
    | ok sr =>
      dsimp only at h
      simp only [Option.some_inj, Prod.mk.injEq] at h
      obtain ⟨h1, -, h3⟩ := h
      obtain ⟨hP1, hP2, hP3, hP4⟩ := queryBatch_stream_inv bs hbs bcb hqs
      have hbrB : br.totalBatches = (flushBatch bcb sr st2).batches.length := by
        rw [← (Except.ok.injEq ..).mp h1]
      have htr : tr = (flushBatch bcb sr st2).calls := h3.symm
      by_cases hcur : 0 < st2.currentBatch.length
      · obtain ⟨fc, hfc1, hfc2, hfc3, hfc4⟩ :
            ∃ fc : BatchCall α, tr = st2.calls ++ [fc] ∧ fc.records = st2.currentBatch ∧
              fc.info.batchSize = st2.currentBatch.length ∧
              fc.info.batchNumber = st2.batches.length + 1 := by
          refine ⟨⟨st2.currentBatch,
              ⟨st2.batches.length + 1, st2.currentBatch.length,
                st2.totalProcessed + st2.currentBatch.length, some sr.totalProcessed⟩,
              bcb st2.currentBatch
                ⟨st2.batches.length + 1, st2.currentBatch.length,
                  st2.totalProcessed + st2.currentBatch.length, some sr.totalProcessed⟩⟩,
            ?_, rfl, rfl, rfl⟩
          rw [htr, flushBatch_calls_pos bcb sr st2 hcur]
        have hdrop : (st2.calls ++ [fc]).dropLast = st2.calls := by simp
        have hlast : (st2.calls ++ [fc]).getLast? = some fc := by simp
        refine ⟨?_, ?_, ?_, ?_⟩
        · intro c hc
          rw [hfc1, hdrop] at hc
          exact hP2 c hc
        · intro c hc
          rw [hfc1, hlast, Option.some_inj] at hc
          rw [← hc]
          refine ⟨by rw [hfc2, hfc3], ?_, ?_⟩
          · rw [hfc2]
            omega
          · rw [hfc2]
            omega
        · rw [hfc1]
          simp only [List.map_append, List.map_cons, List.map_nil, List.length_append,
            List.length_cons, List.length_nil]
          rw [hP3, hfc4, List.range'_concat]
          simp [hP4, Nat.add_comm]
        · rw [hbrB, flushBatch_batches_pos bcb sr st2 hcur, hfc1]
          simp [hP4]
      · rw [flushBatch_neg bcb sr st2 hcur] at htr hbrB
        subst htr
        refine ⟨?_, ?_, ?_, ?_⟩
        · intro c hc
          exact hP2 c (List.mem_of_mem_dropLast hc)
        · intro c hc
          have hmem := List.mem_of_mem_getLast? (l := st2.calls) (a := c)
            (by rw [hc]; exact rfl)
          obtain ⟨hc1, hc2⟩ := hP2 c hmem
          exact ⟨hc1, by omega, by omega⟩
        · exact hP3
        · rw [hbrB]
          exact hP4.symm

end BatchShape

/-! ## Provenance of `totalResultCount` in batch infos -/

section BatchTrc

variable {α σ : Type}

lemma batchStep_calls_trc (bs : Int) (bcb : BatchCb α) (trc : Option Int) :
    ∀ (page : List α) (st : BatchState α) c st', batchStep bs bcb trc st page = (c, st') →
      ∀ cl ∈ st'.calls, cl ∈ st.calls ∨ cl.info.totalResultCount = trc := by
  intro page
  induction page with
  | nil =>
    intro st c st' h cl hcl
    unfold batchStep at h
    simp only [Prod.mk.injEq] at h
    rw [← h.2] at hcl
    exact Or.inl hcl
  | cons r rs ih =>
    intro st c st' h cl hcl
    unfold batchStep at h
    dsimp only at h
    split at h
    · split at h
      · rcases ih _ c st' h cl hcl with hm | hm
        · rcases List.mem_append.mp hm with hm2 | hm2
          · exact Or.inl hm2
          · right
            rw [List.mem_singleton.mp hm2]
        · exact Or.inr hm
      · simp only [Prod.mk.injEq] at h
        rw [← h.2] at hcl
        rcases List.mem_append.mp hcl with hm2 | hm2
        · exact Or.inl hm2
        · right
          rw [List.mem_singleton.mp hm2]
    · rcases ih _ c st' h cl hcl with hm | hm
      · exact Or.inl hm
      · exact Or.inr hm

lemma streamPage_trc {o : QueryOpts} {cb : PageCb σ α} {e : PageEnvelope α}
    {tp : Int} {s : σ} :
    (∀ sr tr s', streamPage o cb e tp s = Sum.inl (sr, tr, s') →
      ∀ c ∈ tr, c.info.totalResultCount = e.TotalResultCount) ∧
    (∀ tp' s' tr, streamPage o cb e tp s = Sum.inr (tp', s', tr) →
      ∀ c ∈ tr, c.info.totalResultCount = e.TotalResultCount) := by
  constructor
  · intro sr tr s' h c hc
    unfold streamPage at h
    split at h
    · cases hlp : limitPage o e.Results tp with
      | none =>
        rw [hlp] at h
        simp only [Sum.inl.injEq, Prod.mk.injEq] at h
        rw [← h.2.1] at hc
        exact absurd hc (by simp)
      | some lp =>
        rw [hlp] at h
        simp only at h
        split at h
        · simp only [Sum.inl.injEq, Prod.mk.injEq] at h
          rw [← h.2.1] at hc
          rw [List.mem_singleton.mp hc]
        · split at h
          · simp only [Sum.inl.injEq, Prod.mk.injEq] at h
            rw [← h.2.1] at hc
            rw [List.mem_singleton.mp hc]
          · exact absurd h (by simp)
    · exact absurd h (by simp)
  · intro tp' s' tr h c hc
    unfold streamPage at h
    split at h
    · cases hlp : limitPage o e.Results tp with
      | none =>
        rw [hlp] at h
        exact absurd h (by simp)
      | some lp =>
        rw [hlp] at h
        simp only at h
        split at h
        · exact absurd h (by simp)
        · split at h
          · exact absurd h (by simp)
          · simp only [Sum.inr.injEq, Prod.mk.injEq] at h
            rw [← h.2.2] at hc
            rw [List.mem_singleton.mp hc]
    · simp only [Sum.inr.injEq, Prod.mk.injEq] at h
      rw [← h.2.2] at hc
      exact absurd hc (by simp)

end BatchTrc

/-! ## Fetch count under a limit, against the deterministic stub fetcher -/

section FetchCount

variable {ps l T : Nat}

lemma stub_page_eq (hps : 0 < ps) (hpl : ps ≤ l) (s : Int) :
    stubPage (⟨1, (ps : Int), some (l : Int)⟩ : QueryOpts) (T : Int) s =
      ⟨List.replicate ps 0, some s, some (T : Int)⟩ := by
  unfold stubPage optimalPageSize
  dsimp only
  rw [if_pos (by exact_mod_cast Nat.lt_of_lt_of_le hps hpl)]
  have : (min (ps : Int) (l : Int)).toNat = ps := by omega
  rw [this]

lemma stub_appendPage_full {c x : Nat} (hc : 0 < c) (hx : x < l) (hfull : x + c ≤ l)
    (acc : List Nat) (hacc : acc.length = x) (s : Int) :
    appendPage (⟨1, (ps : Int), some (l : Int)⟩ : QueryOpts)
      (⟨List.replicate c 0, some s, some (T : Int)⟩ : PageEnvelope Nat) acc ((x : Nat) : Int) =
      Sum.inr (acc ++ List.replicate c 0, ((x + c : Nat) : Int)) := by
  unfold appendPage
  dsimp only
  rw [if_pos (by simp; omega)]
  rw [if_neg (by omega)]
  rw [if_neg (by simp; omega)]
  have hlen : ((x : Nat) : Int) + ((List.replicate c (0 : Nat)).length : Int) =
      ((x + c : Nat) : Int) := by
    simp
  rw [hlen]

lemma stub_appendPage_trim {c x : Nat} (hc : 0 < c) (hx : x < l) (htrim : l < x + c)
    (acc : List Nat) (hacc : acc.length = x) (s : Int) :
    appendPage (⟨1, (ps : Int), some (l : Int)⟩ : QueryOpts)
      (⟨List.replicate c 0, some s, some (T : Int)⟩ : PageEnvelope Nat) acc ((x : Nat) : Int) =
      Sum.inl ⟨acc ++ List.replicate (l - x) 0, 1,
        (acc ++ List.replicate (l - x) 0).length, some (T : Int)⟩ := by
  unfold appendPage
  dsimp only
  rw [if_pos (by simp; omega)]
  rw [if_neg (by omega)]
  rw [if_pos (by simp; omega)]
  have htake : (List.replicate c (0 : Nat)).take ((l : Int) - ((x : Nat) : Int)).toNat =
      List.replicate (l - x) 0 := by
    rw [List.take_replicate]
    congr 1
    omega
  rw [htake]

lemma stub_shouldFetch_true (h0l : 0 < l) (hps : 0 < ps) (hlt : l < T) {s tf : Int}
    (hs : 1 ≤ s) (hmore : s + ps ≤ T) (hwithin : tf < l) :
    shouldFetchNext (⟨1, (ps : Int), some (l : Int)⟩ : QueryOpts)
      (⟨List.replicate ps 0, some s, some (T : Int)⟩ : PageEnvelope Nat) tf = true := by
  unfold shouldFetchNext isValidPagination hasMoreData withinLimit numTruthy
  dsimp only
  simp only [Bool.and_eq_true, bne_iff_ne, decide_eq_true_eq]
  omega

lemma shouldFetchNext_limit_reached {α : Type} {o : QueryOpts} {lim : Int}
    (hl : o.limit = some lim) {tf : Int} (h : ¬tf < lim) (e : PageEnvelope α) :
    shouldFetchNext o e tf = false := by
  unfold shouldFetchNext withinLimit
  rw [hl]
  simp [h]

lemma stub_step_stop (hps : 0 < ps) {x : Nat} {s : Int} (acc : List Nat)
    (hacc : acc.length = x) (hx : x < l) (hstop : l ≤ x + ps)
    (rest : Responses Unit Nat) :
    ∃ r : QueryResult Nat,
      loadRemainingPages (⟨1, (ps : Int), some (l : Int)⟩ : QueryOpts)
        (⟨List.replicate ps 0, some s, some (T : Int)⟩ : PageEnvelope Nat) rest acc
        ((x : Nat) : Int) =
        some (Except.ok r, []) ∧ r.Results.length = l := by
  by_cases htrim : l < x + ps
  · have happ := @stub_appendPage_trim ps l T ps x hps hx htrim acc hacc s
    refine ⟨⟨acc ++ List.replicate (l - x) 0, 1,
      (acc ++ List.replicate (l - x) 0).length, some (T : Int)⟩, ?_, ?_⟩
    · cases rest with
      | nil =>
        unfold loadRemainingPages
        rw [happ]
      | cons resp rest' =>
        unfold loadRemainingPages
        rw [happ]
    · simp only [List.length_append, List.length_replicate]
      omega
  · have hfull : x + ps = l := by omega
    have happ := @stub_appendPage_full ps l T ps x hps hx (by omega) acc hacc s
    have hsf : shouldFetchNext (⟨1, (ps : Int), some (l : Int)⟩ : QueryOpts)
        (⟨List.replicate ps 0, some s, some (T : Int)⟩ : PageEnvelope Nat)
        ((x + ps : Nat) : Int) = false :=
      shouldFetchNext_limit_reached rfl (by push_cast; omega) _
    refine ⟨⟨acc ++ List.replicate ps 0, 1,
      (acc ++ List.replicate ps 0).length, some (T : Int)⟩, ?_, ?_⟩
    · cases rest with
      | nil =>
        unfold loadRemainingPages
        rw [happ]
        dsimp only
        rw [hsf]
        simp
      | cons resp rest' =>
        unfold loadRemainingPages
        rw [happ]
        dsimp only
        rw [hsf]
        simp
    · simp only [List.length_append, List.length_replicate]
      omega

lemma stub_load (h0l : 0 < l) (hps : 0 < ps) (hpl : ps ≤ l) (hlt : l < T) :
    ∀ (n x : Nat) (s : Int) (acc : List Nat),
      s = 1 + (x : Int) → acc.length = x → x < l → l ≤ x + ps + n * ps →
      ∃ r reqs,
        loadRemainingPages (⟨1, (ps : Int), some (l : Int)⟩ : QueryOpts)
          (⟨List.replicate ps 0, some s, some (T : Int)⟩ : PageEnvelope Nat)
          (stubList ⟨1, (ps : Int), some (l : Int)⟩ (T : Int) n (s + (ps : Int))) acc
          ((x : Nat) : Int) =
          some (Except.ok r, reqs) ∧
        r.Results.length = l ∧ x + reqs.length * ps < l ∧ l ≤ x + ps + reqs.length * ps := by
  intro n
  induction n with
  | zero =>
    intro x s acc hs hacc hx hn
    obtain ⟨r, hcall, hlen⟩ := stub_step_stop (T := T) hps acc hacc hx (by omega) _
    exact ⟨r, [], hcall, hlen, by simpa using hx, by simpa using hn⟩
  | succ m ih =>
    intro x s acc hs hacc hx hn
    by_cases hstop : l ≤ x + ps
    · obtain ⟨r, hcall, hlen⟩ := stub_step_stop (T := T) hps acc hacc hx hstop _
      exact ⟨r, [], hcall, hlen, by simpa using hx, by simpa using hstop⟩
    · have hcont : x + ps < l := by omega
      have happ := @stub_appendPage_full ps l T ps x hps hx (by omega) acc hacc s
      have hsf : shouldFetchNext (⟨1, (ps : Int), some (l : Int)⟩ : QueryOpts)
          (⟨List.replicate ps 0, some s, some (T : Int)⟩ : PageEnvelope Nat)
          ((x + ps : Nat) : Int) = true :=
        stub_shouldFetch_true h0l hps hlt (by omega) (by omega) (by omega)
      have hlist : stubList (⟨1, (ps : Int), some (l : Int)⟩ : QueryOpts) (T : Int)
          (m + 1) (s + (ps : Int)) =
          Except.ok (stubPage ⟨1, (ps : Int), some (l : Int)⟩ (T : Int) (s + (ps : Int))) ::
            stubList ⟨1, (ps : Int), some (l : Int)⟩ (T : Int) m
              (s + (ps : Int) + (ps : Int)) := rfl
      have hn' : l ≤ (x + ps) + ps + m * ps := by
        rw [Nat.succ_mul] at hn
        linarith
      obtain ⟨r, reqs2, hcall, hlen, hb1, hb2⟩ := ih (x + ps) (s + (ps : Int))
        (acc ++ List.replicate ps 0) (by push_cast; omega) (by simp [hacc]) hcont hn'
      refine ⟨r, ⟨nextStart ⟨1, (ps : Int), some (l : Int)⟩
        ⟨List.replicate ps 0, some s, some (T : Int)⟩,
        optimalPageSize ⟨1, (ps : Int), some (l : Int)⟩⟩ :: reqs2, ?_, hlen, ?_, ?_⟩
      · rw [hlist]
        unfold loadRemainingPages
        rw [happ]
        dsimp only
        rw [hsf]
        rw [stub_page_eq (T := T) hps hpl]
        rw [hcall]
        rfl
      · simp only [List.length_cons]
        rw [Nat.succ_mul]
        linarith
      · simp only [List.length_cons]
        rw [Nat.succ_mul]
        linarith

lemma ceil_bounds (hps : 0 < ps) (hl : 0 < l) :
    l ≤ ps * ((l + ps - 1) / ps) ∧ ps * ((l + ps - 1) / ps) < l + ps := by
  have h1 := Nat.div_add_mod (l + ps - 1) ps
  have h2 : (l + ps - 1) % ps < ps := Nat.mod_lt _ hps
  obtain ⟨Q, hQ⟩ : ∃ Q, ps * ((l + ps - 1) / ps) = Q := ⟨_, rfl⟩
  obtain ⟨R, hR⟩ : ∃ R, (l + ps - 1) % ps = R := ⟨_, rfl⟩
  rw [hQ, hR] at h1
  rw [hR] at h2
  rw [hQ]
  omega

lemma stub_page_eq_small (h0l : 0 < l) (hlp : l ≤ ps) (s : Int) :
    stubPage (⟨1, (ps : Int), some (l : Int)⟩ : QueryOpts) (T : Int) s =
      ⟨List.replicate l 0, some s, some (T : Int)⟩ := by
  unfold stubPage optimalPageSize
  dsimp only
  rw [if_pos (by exact_mod_cast h0l)]
  have : (min (ps : Int) (l : Int)).toNat = l := by omega
  rw [this]

lemma ceil_eq_of_bounds (hps : 0 < ps) (hl : 0 < l) {c : Nat}
    (hA : c * ps < l) (hB : l ≤ c * ps + ps) : (l + ps - 1) / ps = c + 1 := by
  obtain ⟨hub, hlb⟩ := ceil_bounds hps hl
  rcases Nat.lt_trichotomy ((l + ps - 1) / ps) (c + 1) with h | h | h
  · exfalso
    have hqc : (l + ps - 1) / ps ≤ c := Nat.le_of_lt_succ h
    have hmono := Nat.mul_le_mul (le_refl ps) hqc
    have hcomm : ps * c = c * ps := Nat.mul_comm ps c
    linarith
  · exact h
  · exfalso
    have hq2 : c + 2 ≤ (l + ps - 1) / ps := h
    have hmono := Nat.mul_le_mul (le_refl ps) hq2
    have hexp : ps * (c + 2) = c * ps + 2 * ps := by ring
    linarith

lemma query_stub_fetch_count (hps : 0 < ps) (h0l : 0 < l) (hlt : l < T) :
    ∀ (n : Nat), l ≤ ps + n * ps →
      ∃ r reqs,
        query (⟨1, (ps : Int), some (l : Int)⟩ : QueryOpts)
          (stubList ⟨1, (ps : Int), some (l : Int)⟩ (T : Int) (n + 1) 1) =
          some (Except.ok r, reqs) ∧
        r.Results.length = l ∧ reqs.length = (l + ps - 1) / ps := by
  intro n hn
  have hlist : stubList (⟨1, (ps : Int), some (l : Int)⟩ : QueryOpts) (T : Int) (n + 1) 1 =
      Except.ok (stubPage ⟨1, (ps : Int), some (l : Int)⟩ (T : Int) 1) ::
        stubList ⟨1, (ps : Int), some (l : Int)⟩ (T : Int) n (1 + (ps : Int)) := rfl
  by_cases hpl : ps ≤ l
  · -- full-size pages: the induction applies
    have h00 : ((0 : Nat) : Int) = (0 : Int) := Nat.cast_zero
    obtain ⟨r, reqs2, hcall, hlen, hb1, hb2⟩ := stub_load (T := T) h0l hps hpl hlt n 0 1 []
      (by norm_num) rfl h0l (by omega)
    refine ⟨r, ⟨1, optimalPageSize ⟨1, (ps : Int), some (l : Int)⟩⟩ :: reqs2, ?_, hlen, ?_⟩
    · unfold query
      rw [hlist]
      dsimp only
      rw [stub_page_eq (T := T) hps hpl]
      rw [show ((1 : Int) + (ps : Int)) = (1 : Int) + (ps : Int) from rfl] at hcall
      rw [← h00, hcall]
    · simp only [List.length_cons]
      have hA : reqs2.length * ps < l := by simpa using hb1
      have hB : l ≤ reqs2.length * ps + ps := by
        simp only [Nat.zero_add] at hb2
        omega
      rw [ceil_eq_of_bounds hps h0l hA hB]
  · -- small limit: a single trimmed-size page suffices
    push_neg at hpl
    have happ := @stub_appendPage_full ps l T l 0 h0l h0l
      (by omega) [] rfl 1
    have hsf : shouldFetchNext (⟨1, (ps : Int), some (l : Int)⟩ : QueryOpts)
        (⟨List.replicate l 0, some 1, some (T : Int)⟩ : PageEnvelope Nat)
        ((0 + l : Nat) : Int) = false :=
      shouldFetchNext_limit_reached rfl (by push_cast; omega) _
    have hceil : (l + ps - 1) / ps = 1 := by
      have := ceil_eq_of_bounds hps h0l (c := 0) (by simpa using h0l)
        (by simp; omega)
      simpa using this
    refine ⟨⟨[] ++ List.replicate l 0, 1, ([] ++ List.replicate l 0).length, some (T : Int)⟩,
      [⟨1, optimalPageSize ⟨1, (ps : Int), some (l : Int)⟩⟩], ?_, ?_, ?_⟩
    · unfold query
      rw [hlist]
      dsimp only
      rw [stub_page_eq_small (T := T) h0l (by omega)]
      cases hrest : stubList (⟨1, (ps : Int), some (l : Int)⟩ : QueryOpts) (T : Int) n
          (1 + (ps : Int)) with
      | nil =>
        unfold loadRemainingPages
        rw [show ((0 : Nat) : Int) = (0 : Int) from Nat.cast_zero] at happ
        rw [happ]
        dsimp only
        rw [hsf]
        simp
      | cons resp rest' =>
        unfold loadRemainingPages
        rw [show ((0 : Nat) : Int) = (0 : Int) from Nat.cast_zero] at happ
        rw [happ]
        dsimp only
        rw [hsf]
        simp
    · simp
    · rw [hceil]
      simp

end FetchCount

/-! ## Claim theorems -/

/-- C1: for every invocation of `query`, `queryStream`, or `queryBatch`
with a limit supplied (a `QueryOptions` limit is ≥ 0), the number of
records delivered — `query`'s `Results` length, `queryStream`'s and
`queryBatch`'s `totalProcessed` — never exceeds that limit, regardless
of the sizes of the pages the fetcher returns. -/
theorem limit_invariant :
    (∀ (α ε : Type) (o : QueryOpts) (l : Int), o.limit = some l → 0 ≤ l →
      ∀ (responses : Responses ε α) (r : QueryResult α) (reqs : List Request),
        query o responses = some (Except.ok r, reqs) → (r.Results.length : Int) ≤ l) ∧
    (∀ (α ε σ : Type) (o : QueryOpts) (l : Int), o.limit = some l → 0 ≤ l →
      ∀ (cb : PageCb σ α) (s0 : σ) (responses : Responses ε α) (sr : StreamResult)
        (reqs : List Request) (tr : List (CallRecord α)) (sf : σ),
        queryStream o cb s0 responses = some (Except.ok sr, reqs, tr, sf) →
        sr.totalProcessed ≤ l) ∧
    (∀ (α ε : Type) (o : QueryOpts) (l : Int), o.limit = some l → 0 ≤ l →
      ∀ (batchSize : Option Int) (bcb : BatchCb α) (responses : Responses ε α)
        (br : BatchResult) (reqs : List Request) (calls : List (BatchCall α)),
        queryBatch o batchSize bcb responses = some (Except.ok br, reqs, calls) →
        br.totalProcessed ≤ l) := by
  refine ⟨?_, ?_, ?_⟩
  · intro α ε o l hl h0 responses r reqs h
    exact query_le hl h0 h
  · intro α ε σ o l hl h0 cb s0 responses sr reqs tr sf h
    exact queryStream_le hl h0 h
  · intro α ε o l hl h0 batchSize bcb responses br reqs calls h
    exact queryBatch_le hl h0 h

/-- Witness for C1: a concrete `query` with limit 3 over pages of sizes
2 and 2 returns exactly 3 records, within the limit. -/
theorem limit_invariant_witness :
    query (⟨1, 2, some 3⟩ : QueryOpts)
      ([Except.ok ⟨[5, 6], some 1, some 9⟩, Except.ok ⟨[7, 8], some 3, some 9⟩] :
        Responses Unit Nat) =
      some (Except.ok ⟨[5, 6, 7], 1, 3, some 9⟩, [⟨1, 2⟩, ⟨3, 2⟩]) ∧
    ((([5, 6, 7] : List Nat).length : Int) ≤ 3) :=
  ⟨by rfl,
   limit_invariant.1 Nat Unit ⟨1, 2, some 3⟩ 3 rfl (by decide)
     [Except.ok ⟨[5, 6], some 1, some 9⟩, Except.ok ⟨[7, 8], some 3, some 9⟩]
     ⟨[5, 6, 7], 1, 3, some 9⟩ [⟨1, 2⟩, ⟨3, 2⟩] (by rfl)⟩

/-- C2 (counterexample): the claim requires a next page to be fetched
only if the envelope's start index is a *positive* number, but the code
only tests truthiness: with `StartIndex = -5` (nonzero, not positive) a
second fetch is still issued (two requests, the second at start `-4`). -/
theorem fetch_with_nonpositive_startindex :
    query (⟨1, 1, none⟩ : QueryOpts)
      ([Except.ok ⟨[0], some (-5), some 10⟩, Except.ok ⟨[1], some 100, some 10⟩] :
        Responses Unit Nat) =
      some (Except.ok ⟨[0, 1], 1, 2, some 10⟩, [⟨1, 1⟩, ⟨-4, 1⟩]) ∧
    ((-5 : Int) ≤ 0) :=
  ⟨rfl, by decide⟩

/-- C2 (amended): a next page is fetched only if the envelope's start
index is a *nonzero* number, the requested page size is positive, the
total result count is a nonzero number,
`start index + requested page size ≤ total result count`, and no limit
is set or the processed count is below it; a first envelope with a
missing (or non-numeric) start index or total result count stops
pagination: `query` completes successfully with that page's (trimmed)
records after exactly one fetch, and `queryStream` likewise completes
with exactly one fetch. -/
theorem pagination_guard :
    (∀ (α : Type) (o : QueryOpts) (e : PageEnvelope α) (tf : Int),
      shouldFetchNext o e tf = true →
        (∃ si, e.StartIndex = some si ∧ si ≠ 0) ∧
        0 < o.pageSize ∧
        (∃ trc, e.TotalResultCount = some trc ∧ trc ≠ 0) ∧
        (∀ si trc, e.StartIndex = some si → e.TotalResultCount = some trc →
          si + o.pageSize ≤ trc) ∧
        (∀ l, o.limit = some l → tf < l)) ∧
    (∀ (α ε : Type) (o : QueryOpts) (e : PageEnvelope α) (rest : Responses ε α),
      e.StartIndex = none ∨ e.TotalResultCount = none →
      query o (Except.ok e :: rest) =
        some (Except.ok ⟨firstPageResults o e, o.start, (firstPageResults o e).length,
          e.TotalResultCount⟩, [⟨o.start, optimalPageSize o⟩])) ∧
    (∀ (α ε σ : Type) (o : QueryOpts) (cb : PageCb σ α) (s0 : σ) (e : PageEnvelope α)
      (rest : Responses ε α),
      e.StartIndex = none ∨ e.TotalResultCount = none →
      ∃ sr tr sf, queryStream o cb s0 (Except.ok e :: rest) =
        some (Except.ok sr, [⟨o.start, optimalPageSize o⟩], tr, sf)) := by
  refine ⟨?_, ?_, ?_⟩
  · intro α o e tf h
    unfold shouldFetchNext at h
    simp only [Bool.and_eq_true] at h
    obtain ⟨⟨hval, hmore⟩, hwithin⟩ := h
    unfold isValidPagination at hval
    simp only [Bool.and_eq_true] at hval
    obtain ⟨⟨hsi, hps⟩, htrc⟩ := hval
    refine ⟨?_, ?_, ?_, ?_, ?_⟩
    · cases hS : e.StartIndex with
      | none =>
        rw [hS] at hsi
        exact absurd hsi (by simp [numTruthy])
      | some si =>
        refine ⟨si, rfl, ?_⟩
        rw [hS] at hsi
        unfold numTruthy at hsi
        simpa using hsi
    · simp only [Bool.and_eq_true, bne_iff_ne, decide_eq_true_eq] at hps
      exact hps.2
    · cases hT : e.TotalResultCount with
      | none =>
        rw [hT] at htrc
        exact absurd htrc (by simp [numTruthy])
      | some trc =>
        refine ⟨trc, rfl, ?_⟩
        rw [hT] at htrc
        unfold numTruthy at htrc
        simpa using htrc
    · intro si trc hS hT
      unfold hasMoreData at hmore
      rw [hS, hT] at hmore
      simpa using hmore
    · intro l hl
      unfold withinLimit at hwithin
      rw [hl] at hwithin
      simpa using hwithin
  · intro α ε o e rest hm
    exact query_malformed_first o e rest hm
  · intro α ε σ o cb s0 e rest hm
    exact queryStream_malformed_first o cb s0 e rest hm

/-- Witness for C2 (amended): a first envelope with a missing
`StartIndex` and limit 10 yields exactly one fetch (request
⟨start 1, pagesize 10⟩) and a successful result with that page's
records. -/
theorem pagination_guard_witness :
    query (⟨1, 200, some 10⟩ : QueryOpts)
      ([Except.ok ⟨[7], none, some 100⟩] : Responses Unit Nat) =
      some (Except.ok ⟨[7], 1, 1, some 100⟩, [⟨1, 10⟩]) := by
  rw [pagination_guard.2.1 Nat Unit ⟨1, 200, some 10⟩ ⟨[7], none, some 100⟩ [] (Or.inl rfl)]
  rfl

/-- C4 (code bug): the repository's tests
(`spec/bug-fixes.spec.js`, "should ensure optimalPageSize is never 0 or
negative") require a requested page size of 0 to be corrected to 1 in
the outgoing request, but the code computes
`min(pageSize, limit) = min(0, 5) = 0` with no lower clamp, and both
`query` and `queryStream` send `pagesize = 0`. -/
theorem pagesize_zero_not_clamped :
    optimalPageSize (⟨1, 0, some 5⟩ : QueryOpts) = 0 ∧
    query (⟨1, 0, some 5⟩ : QueryOpts)
      ([Except.ok ⟨[7], some 1, some 1⟩] : Responses Unit Nat) =
      some (Except.ok ⟨[7], 1, 1, some 1⟩, [⟨1, 0⟩]) ∧
    queryStream (⟨1, 0, some 5⟩ : QueryOpts) (fun (k : Nat) _ _ => (true, k + 1)) 0
      ([Except.ok ⟨[7], some 1, some 1⟩] : Responses Unit Nat) =
      some (Except.ok ⟨1, true⟩, [⟨1, 0⟩], [⟨[7], ⟨some 1, 1, some 1, 1⟩, true⟩], 1) :=
  ⟨rfl, rfl, rfl⟩

/-- C5 (code bug): the repository's test (`spec/bug-fixes.spec.js`,
"should respect limit=0 and return no results") requires `limit = 0` to
issue zero requests and report `TotalResultCount = 0`, but the code
performs one fetch (with `pagesize = 200`) and echoes the envelope's
total result count. -/
theorem limit_zero_one_fetch :
    query (⟨1, 200, some 0⟩ : QueryOpts)
      ([Except.ok ⟨[10, 20], some 1, some 100⟩] : Responses Unit Nat) =
      some (Except.ok ⟨[], 1, 0, some 100⟩, [⟨1, 200⟩]) ∧
    ([(⟨1, 200⟩ : Request)].length = 1) :=
  ⟨rfl, rfl⟩

/-- C9: when some fetch of `query` fails, the whole operation fails with
exactly the error the fetch produced — the returned error is one of the
transport's own rejections, a failing first fetch propagates unchanged
after exactly one request, and a failing fetch mid-pagination yields
just that error and its one request: the records accumulated from
earlier pages (`acc`) do not appear in the outcome. -/
theorem fetch_error_propagates :
    (∀ (α ε : Type) (o : QueryOpts) (responses : Responses ε α) (err : ε)
      (reqs : List Request),
      query o responses = some (Except.error err, reqs) →
      Except.error err ∈ responses) ∧
    (∀ (α ε : Type) (o : QueryOpts) (err : ε) (rest : Responses ε α),
      query o (Except.error err :: rest) =
        (some (Except.error err, [⟨o.start, optimalPageSize o⟩]) :
          Option (Except ε (QueryResult α) × List Request))) ∧
    (∀ (α ε : Type) (o : QueryOpts) (e : PageEnvelope α) (acc acc' : List α)
      (tf tf' : Int) (err : ε) (rest' : Responses ε α),
      appendPage o e acc tf = Sum.inr (acc', tf') →
      shouldFetchNext o e tf' = true →
      loadRemainingPages o e (Except.error err :: rest') acc tf =
        some (Except.error err, [⟨nextStart o e, optimalPageSize o⟩])) := by
  refine ⟨?_, ?_, ?_⟩
  · intro α ε o responses err reqs h
    exact query_error_mem h
  · intro α ε o err rest
    rfl
  · intro α ε o e acc acc' tf tf' err rest' happ hf
    exact loadRemainingPages_midrun_error err rest' happ hf

/-- Witness for C9: a second-page fetch failure after a successful first
page makes the whole `query` fail with that same transport error. -/
theorem fetch_error_propagates_witness :
    query (⟨1, 200, none⟩ : QueryOpts)
      ([Except.ok ⟨[5], some 1, some 300⟩, Except.error 42] : Responses Nat Nat) =
      some (Except.error 42, [⟨1, 200⟩, ⟨201, 200⟩]) ∧
    Except.error 42 ∈
      ([Except.ok ⟨[5], some 1, some 300⟩, Except.error 42] : Responses Nat Nat) :=
  ⟨rfl,
   fetch_error_propagates.1 Nat Nat ⟨1, 200, none⟩
     [Except.ok ⟨[5], some 1, some 300⟩, Except.error 42] 42 [⟨1, 200⟩, ⟨201, 200⟩] rfl⟩

/-- C6: pages are fetched sequentially and the stream stops as soon as
the page callback returns false: only the last callback invocation can
carry a false decision, `completed` is false exactly when the last
invocation returned false, and `totalProcessed` is the total number of
records delivered to the callback.  In particular, with three pages
available and a callback returning true for the first page and false
for the second, exactly 2 fetches occur and `totalProcessed` is the sum
of the first two pages' sizes. -/
theorem stream_stops_on_false :
    (∀ (α ε σ : Type) (o : QueryOpts) (cb : PageCb σ α) (s0 : σ)
      (responses : Responses ε α) (sr : StreamResult) (reqs : List Request)
      (tr : List (CallRecord α)) (sf : σ),
      queryStream o cb s0 responses = some (Except.ok sr, reqs, tr, sf) →
      sr.totalProcessed = traceTotal tr ∧
      (∀ c ∈ tr.dropLast, c.decision = true) ∧
      (sr.completed = false ↔ ∃ c, tr.getLast? = some c ∧ c.decision = false)) ∧
    (∀ (a b : Nat), 0 < a → 0 < b →
      queryStream (⟨1, 200, none⟩ : QueryOpts) (fun (k : Nat) _ _ => (k == 0, k + 1)) 0
        ([Except.ok ⟨List.replicate a 0, some 1, some 1000⟩,
          Except.ok ⟨List.replicate b 0, some 201, some 1000⟩,
          Except.ok ⟨List.replicate 5 0, some 401, some 1000⟩] : Responses Unit Nat) =
        some (Except.ok ⟨(a : Int) + b, false⟩, [⟨1, 200⟩, ⟨201, 200⟩],
          [⟨List.replicate a 0, ⟨some 1, a, some 1000, (a : Int)⟩, true⟩,
           ⟨List.replicate b 0, ⟨some 201, b, some 1000, (a : Int) + b⟩, false⟩], 2)) := by
  constructor
  · intro α ε σ o cb s0 responses sr reqs tr sf h
    obtain ⟨h1, h2, h3⟩ := queryStream_trace h
    exact ⟨h1, h3, h2⟩
  · intro a b ha hb
    have ha' : 0 < (List.replicate a (0 : Nat)).length := by simpa using ha
    have hb' : 0 < (List.replicate b (0 : Nat)).length := by simpa using hb
    unfold queryStream
    dsimp only
    unfold processPages
    rw [streamPage_no_limit rfl ha' 0 0]
    rw [if_pos (by rfl)]
    dsimp only
    rw [show shouldFetchNext (⟨1, 200, none⟩ : QueryOpts)
        (⟨List.replicate a 0, some 1, some 1000⟩ : PageEnvelope Nat)
        (0 + ((List.replicate a (0 : Nat)).length : Int)) = true from rfl]
    rw [if_pos rfl]
    unfold processPages
    rw [streamPage_no_limit rfl hb' _ _]
    rw [if_neg (by simp)]
    dsimp only
    simp only [List.length_replicate, Option.some_inj, Prod.mk.injEq]
    norm_num [optimalPageSize, nextStart]

/-- Witness for C6: with pages of sizes 2 and 3 (and a third page
available) and a callback returning true then false, exactly 2 fetches
occur, `completed` is false, and `totalProcessed` is 5. -/
theorem stream_stops_on_false_witness :
    queryStream (⟨1, 200, none⟩ : QueryOpts) (fun (k : Nat) _ _ => (k == 0, k + 1)) 0
      ([Except.ok ⟨List.replicate 2 0, some 1, some 1000⟩,
        Except.ok ⟨List.replicate 3 0, some 201, some 1000⟩,
        Except.ok ⟨List.replicate 5 0, some 401, some 1000⟩] : Responses Unit Nat) =
      some (Except.ok ⟨(2 : Int) + 3, false⟩, [⟨1, 200⟩, ⟨201, 200⟩],
        [⟨List.replicate 2 0, ⟨some 1, 2, some 1000, (2 : Int)⟩, true⟩,
         ⟨List.replicate 3 0, ⟨some 201, 3, some 1000, (2 : Int) + 3⟩, false⟩], 2) :=
  stream_stops_on_false.2 2 3 (by decide) (by decide)

set_option maxRecDepth 8000 in
/-- C7: with a positive batch size, every batch delivered to the batch
callback has exactly `batchSize` records except possibly the last
(which holds between 1 and `batchSize` records), the reported
`batchSize` field always equals the number of records delivered, batch
numbers are 1-based and increase by one across mid-stream and
final-flush invocations, and `totalBatches` counts the callback
invocations.  For page sizes [200, 150] with `batchSize = 75` the
delivered batch sizes are [75, 75, 75, 75, 50] in order, with
`totalBatches = 5` and `totalProcessed = 350`. -/
theorem batch_regrouping :
    (∀ (α ε : Type) (o : QueryOpts) (bs : Int), 1 ≤ bs →
      ∀ (bcb : BatchCb α) (responses : Responses ε α) (br : BatchResult)
        (reqs : List Request) (tr : List (BatchCall α)),
        queryBatch o (some bs) bcb responses = some (Except.ok br, reqs, tr) →
        (∀ c ∈ tr.dropLast, c.records.length = c.info.batchSize ∧
          (c.records.length : Int) = bs) ∧
        (∀ c, tr.getLast? = some c → c.records.length = c.info.batchSize ∧
          1 ≤ c.records.length ∧ (c.records.length : Int) ≤ bs) ∧
        tr.map (fun c => c.info.batchNumber) = List.range' 1 tr.length ∧
        br.totalBatches = tr.length) ∧
    (queryBatch (⟨1, 200, none⟩ : QueryOpts) (some 75) (fun _ _ => true)
        ([Except.ok ⟨List.replicate 200 0, some 1, some 350⟩,
          Except.ok ⟨List.replicate 150 0, some 201, some 350⟩] : Responses Unit Nat)).map
        (fun p => (p.1.toOption,
          p.2.2.map (fun c => (c.records.length, c.info.batchNumber)))) =
      some (some ⟨350, 5, true⟩, [(75, 1), (75, 2), (75, 3), (75, 4), (50, 5)]) := by
  constructor
  · intro α ε o bs hbs bcb responses br reqs tr h
    exact queryBatch_calls_shape bs hbs bcb h
  · decide

set_option maxRecDepth 8000 in
/-- Witness for C7: in the [200, 150] / batchSize-75 run, the batch
numbers recorded by the callback are 1, 2, 3, 4, 5. -/
theorem batch_regrouping_witness :
    ([⟨List.replicate 75 0, ⟨1, 75, 75, some 350⟩, true⟩,
      ⟨List.replicate 75 0, ⟨2, 75, 150, some 350⟩, true⟩,
      ⟨List.replicate 75 0, ⟨3, 75, 225, some 350⟩, true⟩,
      ⟨List.replicate 75 0, ⟨4, 75, 300, some 350⟩, true⟩,
      ⟨List.replicate 50 0, ⟨5, 50, 350, some 350⟩, true⟩] : List (BatchCall Nat)).map
      (fun c => c.info.batchNumber) =
    List.range' 1 ([⟨List.replicate 75 0, ⟨1, 75, 75, some 350⟩, true⟩,
      ⟨List.replicate 75 0, ⟨2, 75, 150, some 350⟩, true⟩,
      ⟨List.replicate 75 0, ⟨3, 75, 225, some 350⟩, true⟩,
      ⟨List.replicate 75 0, ⟨4, 75, 300, some 350⟩, true⟩,
      ⟨List.replicate 50 0, ⟨5, 50, 350, some 350⟩, true⟩] : List (BatchCall Nat)).length :=
  (batch_regrouping.1 Nat Unit ⟨1, 200, none⟩ 75 (by decide) (fun _ _ => true)
    [Except.ok ⟨List.replicate 200 0, some 1, some 350⟩,
     Except.ok ⟨List.replicate 150 0, some 201, some 350⟩]
    ⟨350, 5, true⟩ [⟨1, 200⟩, ⟨201, 200⟩]
    [⟨List.replicate 75 0, ⟨1, 75, 75, some 350⟩, true⟩,
     ⟨List.replicate 75 0, ⟨2, 75, 150, some 350⟩, true⟩,
     ⟨List.replicate 75 0, ⟨3, 75, 225, some 350⟩, true⟩,
     ⟨List.replicate 75 0, ⟨4, 75, 300, some 350⟩, true⟩,
     ⟨List.replicate 50 0, ⟨5, 50, 350, some 350⟩, true⟩] (by rfl)).2.2.1

/-- C8 (counterexample): the `BatchInfo` of the final remainder flush
does not carry the server-reported total result count.  With one page
of 1 record whose envelope reports `TotalResultCount = 100`, the flush
passes `totalResultCount = some 1` (the stream's `totalProcessed`), not
`some 100`. -/
theorem flush_totalresultcount_counterexample :
    queryBatch (⟨1, 200, none⟩ : QueryOpts) none (fun _ _ => true)
      ([Except.ok ⟨[42], some 1, some 100⟩] : Responses Unit Nat) =
      some (Except.ok ⟨1, 1, true⟩, [⟨1, 200⟩], [⟨[42], ⟨1, 1, 1, some 1⟩, true⟩]) ∧
    (⟨[42], some 1, some 100⟩ : PageEnvelope Nat).TotalResultCount = some 100 ∧
    some (1 : Int) ≠ some (100 : Int) :=
  ⟨rfl, rfl, by decide⟩

/-- C8 (amended): every `BatchInfo` passed by a mid-stream batch flush
carries the `totalResultCount` of the page callback's `pageInfo`, which
is the server-reported total result count of the envelope being
processed; the `BatchInfo` of the final remainder flush instead carries
the stream's `totalProcessed`. -/
theorem batchinfo_totalresultcount :
    (∀ (α : Type) (bs : Int) (bcb : BatchCb α) (trc : Option Int) (page : List α)
      (st : BatchState α) c st', batchStep bs bcb trc st page = (c, st') →
      ∀ cl ∈ st'.calls, cl ∈ st.calls ∨ cl.info.totalResultCount = trc) ∧
    (∀ (α σ : Type) (o : QueryOpts) (cb : PageCb σ α) (e : PageEnvelope α)
      (tp : Int) (s : σ) sr tr s',
      streamPage o cb e tp s = Sum.inl (sr, tr, s') →
      ∀ c ∈ tr, c.info.totalResultCount = e.TotalResultCount) ∧
    (∀ (α σ : Type) (o : QueryOpts) (cb : PageCb σ α) (e : PageEnvelope α)
      (tp : Int) (s : σ) tp' s' tr,
      streamPage o cb e tp s = Sum.inr (tp', s', tr) →
      ∀ c ∈ tr, c.info.totalResultCount = e.TotalResultCount) ∧
    (∀ (α : Type) (bcb : BatchCb α) (sr : StreamResult) (st : BatchState α),
      0 < st.currentBatch.length →
      (flushBatch bcb sr st).calls = st.calls ++
        [⟨st.currentBatch,
          ⟨st.batches.length + 1, st.currentBatch.length,
            st.totalProcessed + st.currentBatch.length, some sr.totalProcessed⟩,
          bcb st.currentBatch
            ⟨st.batches.length + 1, st.currentBatch.length,
              st.totalProcessed + st.currentBatch.length, some sr.totalProcessed⟩⟩]) := by
  refine ⟨?_, ?_, ?_, ?_⟩
  · intro α bs bcb trc page st c st' h
    exact batchStep_calls_trc bs bcb trc page st c st' h
  · intro α σ o cb e tp s sr tr s' h
    exact streamPage_trc.1 sr tr s' h
  · intro α σ o cb e tp s tp' s' tr h
    exact streamPage_trc.2 tp' s' tr h
  · intro α bcb sr st h
    exact flushBatch_calls_pos bcb sr st h

/-- Witness for C8 (amended): flushing a pending batch [7, 8] after a
stream that processed 9 records appends one call whose `BatchInfo`
carries `totalResultCount = some 9` (the stream's `totalProcessed`). -/
theorem batchinfo_totalresultcount_witness :
    (flushBatch (fun _ _ => true) (⟨9, true⟩ : StreamResult)
      (⟨[[1]], [7, 8], 5, []⟩ : BatchState Nat)).calls =
      [⟨[7, 8], ⟨2, 2, 7, some 9⟩, true⟩] := by
  have h := batchinfo_totalresultcount.2.2.2 Nat (fun _ _ => true) ⟨9, true⟩
    ⟨[[1]], [7, 8], 5, []⟩ (by decide)
  simpa using h

/-- C10: the batch callback's return value on the final remainder flush
is ignored: for every `queryBatch` run that resolves, the flush occurs
exactly when the stream left a non-empty pending batch, its records are
counted into `totalProcessed` and `totalBatches`, and the returned
`completed` flag equals the underlying stream's `completed` flag;
moreover, on a run whose only callback invocation is the final flush,
two arbitrary batch callbacks (regardless of what they return) yield
the same `BatchResult` and requests. -/
theorem flush_return_ignored :
    (∀ (α ε : Type) (o : QueryOpts) (batchSize : Option Int) (bcb : BatchCb α)
      (responses : Responses ε α) (br : BatchResult) (reqs : List Request)
      (tr : List (BatchCall α)),
      queryBatch o batchSize bcb responses = some (Except.ok br, reqs, tr) →
      ∃ sr reqs2 tr2 st,
        queryStream o
          (fun st page pi =>
            batchStep (effectiveBatchSize o batchSize) bcb pi.totalResultCount st page)
          (⟨[], [], 0, []⟩ : BatchState α) responses = some (Except.ok sr, reqs2, tr2, st) ∧
        reqs = reqs2 ∧
        br.completed = sr.completed ∧
        br.totalProcessed = st.totalProcessed + st.currentBatch.length ∧
        br.totalBatches = st.batches.length +
          (if 0 < st.currentBatch.length then 1 else 0) ∧
        tr = (flushBatch bcb sr st).calls ∧
        (0 < st.currentBatch.length → tr.length = st.calls.length + 1) ∧
        (¬0 < st.currentBatch.length → tr = st.calls)) ∧
    (∀ f g : BatchCb Nat,
      (queryBatch (⟨1, 200, none⟩ : QueryOpts) none f
        ([Except.ok ⟨[1, 2, 3], some 1, some 100⟩] : Responses Unit Nat)).map
        (fun p => (p.1, p.2.1)) =
      (queryBatch (⟨1, 200, none⟩ : QueryOpts) none g
        ([Except.ok ⟨[1, 2, 3], some 1, some 100⟩] : Responses Unit Nat)).map
        (fun p => (p.1, p.2.1))) := by
  constructor
  · intro α ε o batchSize bcb responses br reqs tr h
    unfold queryBatch at h
    dsimp only at h
    cases hqs : queryStream o
        (fun st page pi =>
          batchStep (effectiveBatchSize o batchSize) bcb pi.totalResultCount st page)
        (⟨[], [], 0, []⟩ : BatchState α) responses with
    | none =>
      rw [hqs] at h
      exact absurd h (by simp)
    | some q =>
      obtain ⟨res2, reqs2, tr2, st2⟩ := q
      rw [hqs] at h
      cases res2 with
      | error err =>
        dsimp only at h
        simp only [Option.some_inj, Prod.mk.injEq] at h
        exact absurd h.1 (by simp)
      | ok sr =>
        dsimp only at h
        simp only [Option.some_inj, Prod.mk.injEq] at h
        obtain ⟨h1, h2, h3⟩ := h
        have hbr := ((Except.ok.injEq ..).mp h1).symm
        refine ⟨sr, reqs2, tr2, st2, rfl, h2.symm, ?_, ?_, ?_, h3.symm, ?_, ?_⟩
        · rw [hbr]
        · rw [hbr]
          by_cases hcur : 0 < st2.currentBatch.length
          · rw [flushBatch_total_pos bcb sr st2 hcur]
          · rw [flushBatch_neg bcb sr st2 hcur]
            dsimp only
            omega
        · rw [hbr]
          by_cases hcur : 0 < st2.currentBatch.length
          · rw [flushBatch_batches_pos bcb sr st2 hcur, if_pos hcur]
            simp
          · rw [flushBatch_neg bcb sr st2 hcur, if_neg hcur]
            simp
        · intro hcur
          rw [h3.symm, flushBatch_calls_pos bcb sr st2 hcur]
          simp
        · intro hcur
          rw [h3.symm, flushBatch_neg bcb sr st2 hcur]
  · intro f g
    rfl

/-- Witness for C10: with a single 3-record page and the default batch
size, a callback that always continues and one that always stops yield
the same `BatchResult` and the same requests. -/
theorem flush_return_ignored_witness :
    (queryBatch (⟨1, 200, none⟩ : QueryOpts) none (fun _ _ => true)
      ([Except.ok ⟨[1, 2, 3], some 1, some 100⟩] : Responses Unit Nat)).map
      (fun p => (p.1, p.2.1)) =
    (queryBatch (⟨1, 200, none⟩ : QueryOpts) none (fun _ _ => false)
      ([Except.ok ⟨[1, 2, 3], some 1, some 100⟩] : Responses Unit Nat)).map
      (fun p => (p.1, p.2.1)) :=
  flush_return_ignored.2 (fun _ _ => true) (fun _ _ => false)

/-- C3: for every `query` with `0 < limit < total available records`,
against the deterministic well-formed stub fetcher that returns exactly
the requested number of records per page (`stubList`), the returned
`Results` has length exactly `limit` and the number of fetch calls is
`⌈limit / requestedPageSize⌉ = (limit + pageSize - 1) / pageSize` — no
matter how many further pages (`n + 1` responses in total) the fetcher
could have served, so no extra page is requested; in particular when
the limit is an exact multiple of the page size, exactly
`limit / pageSize` fetches occur. -/
theorem limit_fetch_count :
    ∀ (ps l T n : Nat), 0 < ps → 0 < l → l < T → l ≤ ps + n * ps →
      ∃ r reqs,
        query (⟨1, (ps : Int), some (l : Int)⟩ : QueryOpts)
          (stubList ⟨1, (ps : Int), some (l : Int)⟩ (T : Int) (n + 1) 1) =
          some (Except.ok r, reqs) ∧
        r.Results.length = l ∧ reqs.length = (l + ps - 1) / ps := by
  intro ps l T n hps h0l hlt hn
  exact query_stub_fetch_count hps h0l hlt n hn

/-- Witness for C3: with pageSize 100, limit 200 (an exact page-boundary
limit), total 500, and six pages available, `query` returns exactly 200
records after exactly `(200 + 100 - 1) / 100 = 2` fetches. -/
theorem limit_fetch_count_witness :
    (∃ r reqs,
      query (⟨1, 100, some 200⟩ : QueryOpts)
        (stubList ⟨1, 100, some 200⟩ 500 6 1) =
        some (Except.ok r, reqs) ∧
      r.Results.length = 200 ∧ reqs.length = (200 + 100 - 1) / 100) ∧
    (200 + 100 - 1) / 100 = 2 :=
  ⟨limit_fetch_count 100 200 500 5 (by decide) (by decide) (by decide) (by decide),
   by decide⟩

end Rally
